import Mathlib

/-!
# Jetson SW: command routing, fault arbitration and wire formats

A shallow embedding of

* `FaultManager::faulthandling`, `FaultManager::logFault` and the body of the
  `FaultManager::faultfind` loop (`src/faultmanager.cpp`),
* the inbound frame walk and the message dispatch of
  `CommTCPComponent::handleCommandClient`, and `CommTCPComponent::serialize`
  (`src/commtcpcomponent.cpp`).

Conventions of the embedding

* a `std::string` is a `List Char` (`Str`); a C++ `char` is a Lean `Char`;
* a `ThreadSafeQueue<std::string>` is a `List Str`, `push` appends at the end
  and `tryPop` removes the head;
* a C++ exception is a value of `Exn`; a function that can throw returns
  `Except Exn _` when it has no effect on the queues and `Res` when it has;
* console output (`std::cout`, `std::cerr`) and the byte counters are not
  modelled: they do not influence the queues, the log or the bytes produced.
-/

namespace Jetson

/-! ## Strings and the standard-library functions the code calls -/

/-- A `std::string`. -/
abbrev Str := List Char

/-- The standard exceptions the modelled code can raise. -/
inductive Exn where
  | out_of_range
  | invalid_argument
  | length_error
  deriving DecidableEq, Repr

/-- The constant `INT_MIN` of a 32-bit `int`. -/
def INT_MIN : Int := -2147483648

/-- The constant `INT_MAX` of a 32-bit `int`. -/
def INT_MAX : Int := 2147483647

/-- Models `std::string::find(needle)`: index of the first occurrence of `needle`,
`none` standing for `std::string::npos`. -/
def find : Str → Str → Option Nat
  | [], needle => if needle.isEmpty then some 0 else none
  | c :: cs, needle =>
    if needle.isPrefixOf (c :: cs) then some 0
    else (find cs needle).map (· + 1)

/-- Models `std::string::substr(pos)`: throws `std::out_of_range` when `pos > size()`. -/
def substr (s : Str) (pos : Nat) : Except Exn Str :=
  if pos > s.length then .error .out_of_range else .ok (s.drop pos)

/-- The predicate `isspace` in the "C" locale. -/
def isspace (c : Char) : Bool :=
  c = ' ' || c = '\t' || c = '\n' || c = '\x0b' || c = '\x0c' || c = '\r'

/-- The predicate `isdigit`. -/
def isdigit (c : Char) : Bool := decide ('0' ≤ c) && decide (c ≤ '9')

/-- Value of a run of decimal digits, most significant first. -/
def digitsValue (ds : Str) : Nat :=
  ds.foldl (fun acc c => 10 * acc + (c.toNat - 48)) 0

/-- Models `std::stoi(s)` (base 10): skip leading white space, read an optional sign,
then the longest run of digits; what follows the digits is ignored.
`std::invalid_argument` when there is no digit, `std::out_of_range` when the
value is not an `int`. -/
def stoi (s : Str) : Except Exn Int :=
  match s.dropWhile isspace with
  | [] => .error .invalid_argument
  | c :: r =>
    let body := if c = '-' ∨ c = '+' then r else c :: r
    let ds := body.takeWhile isdigit
    if ds = [] then .error .invalid_argument
    else
      let v : Int := if c = '-' then -(digitsValue ds : Int) else (digitsValue ds : Int)
      if v < INT_MIN ∨ INT_MAX < v then .error .out_of_range else .ok v

/-- Models `std::to_string(int)`: the decimal text, with a leading `-` for a negative
value. -/
def to_string (v : Int) : Str :=
  if v < 0 then '-' :: Nat.toDigits 10 v.natAbs else Nat.toDigits 10 v.natAbs

/-! ## Thresholds (`include/faultmanager.h`) -/

/-- Largest accepted FPS value. -/
def MAX_FPS_THRESHOLD : Int := 100

/-- Smallest accepted FPS value. -/
def MIN_FPS_THRESHOLD : Int := 0

/-- Largest accepted FDT value. -/
def MAX_FDT_THRESHOLD : Int := 100

/-- Smallest accepted FDT value. -/
def MIN_FDT_THRESHOLD : Int := 0

/-! ## The two shared queues -/

/-- The command queue and the fault queue shared by the components. -/
structure Channels where
  commandsQueue : List Str
  faultsQueue : List Str
  deriving DecidableEq, Repr

/-- The call `commandsQueue.push(s)`. -/
def Channels.pushCommand (st : Channels) (s : Str) : Channels :=
  { st with commandsQueue := st.commandsQueue ++ [s] }

/-- The call `faultsQueue.push(s)`. -/
def Channels.pushFault (st : Channels) (s : Str) : Channels :=
  { st with faultsQueue := st.faultsQueue ++ [s] }

/-- Result of a piece of code acting on the queues: it returns normally, or an
exception leaves it; in both cases with the queues as they are at that point. -/
inductive Res where
  | ok (st : Channels)
  | throws (e : Exn) (st : Channels)
  deriving DecidableEq, Repr

/-- Evaluate an expression that may throw; on success go on with its value. -/
def Res.try {α : Type} (st : Channels) (x : Except Exn α) (k : α → Res) : Res :=
  match x with
  | .error e => .throws e st
  | .ok a => k a

/-! ## `FaultManager` -/

/-- The method `FaultManager::faulthandling` (faultmanager.cpp, lines 88-212). -/
def faulthandling (fault : Str) (st : Channels) : Res :=
  if fault = "Camera_disconnected".toList then
    .ok (st.pushCommand "Read_video".toList)
  else if (find fault "SET_FPS".toList).isSome then
    match find fault ":".toList with
    | none => .ok st
    | some pos =>
      Res.try st (substr fault (pos + 1)) fun fpsValueStr =>
      Res.try st (stoi fpsValueStr) fun fpsvalue =>
      if fpsvalue < MIN_FPS_THRESHOLD then
        .ok (st.pushCommand ("SET_FPS:".toList ++ to_string MIN_FPS_THRESHOLD))
      else if fpsvalue > MAX_FPS_THRESHOLD then
        .ok (st.pushCommand ("SET_FPS:".toList ++ to_string MAX_FPS_THRESHOLD))
      else
        Res.try st (substr fault 8) fun rest =>
        .ok (st.pushCommand ("SET_FPS:".toList ++ rest))
  else if (find fault "SET_FDT:".toList).isSome then
    match find fault ":".toList with
    | none => .ok st
    | some pos =>
      Res.try st (substr fault (pos + 1)) fun fdtValueStr =>
      Res.try st (stoi fdtValueStr) fun fdtvalue =>
      if fdtvalue < MIN_FDT_THRESHOLD then
        .ok (st.pushCommand ("SET_FDT:".toList ++ to_string MIN_FDT_THRESHOLD))
      else if fdtvalue > MAX_FDT_THRESHOLD then
        .ok (st.pushCommand ("SET_FDT:".toList ++ to_string MAX_FDT_THRESHOLD))
      else
        Res.try st (substr fault 8) fun rest =>
        .ok (st.pushCommand ("SET_FDT:".toList ++ rest))
  else if fault = "TURN_OFF".toList then
    .ok (st.pushCommand "TURN_OFF".toList)
  else if fault = "TCP_Connection_Error".toList then
    .ok (st.pushCommand "No_TCP_Connection".toList)
  else if fault = "FaceDet_fault".toList then
    .ok (st.pushCommand "SET_FD_MODEL:No Face Detection".toList)
  else if (find fault "Velocity_fault".toList).isSome then
    .ok st
  else if (find fault "Steering_fault".toList).isSome then
    .ok st
  else
    .ok st

/-- State of a `FaultManager`: the shared queues, the `running` flag, whether
`faultLogFile.is_open()`, and the lines written to the fault log file so far. -/
structure FaultManager where
  ch : Channels
  running : Bool
  logOpen : Bool
  faultLog : List Str
  deriving DecidableEq, Repr

/-- The method `FaultManager::logFault` (faultmanager.cpp, lines 215-222). `now` is the text
`pt::to_iso_extended_string(pt::second_clock::local_time())` at the call. -/
def logFault (now : Str) (fault : Str) (fm : FaultManager) : FaultManager :=
  if fm.logOpen then
    { fm with faultLog := fm.faultLog ++ ["[".toList ++ now ++ "] ".toList ++ fault] }
  else fm

/-- How one pass through the body of the `while (running)` loop of `faultfind`
ends: the loop goes on, or an exception leaves `faultfind`. `faultfind` is the
thread function and has no handler, so the exception ends the thread by
`std::terminate`. -/
inductive IterResult where
  | continues (fm : FaultManager)
  | terminated (e : Exn) (fm : FaultManager)
  deriving DecidableEq, Repr

/-- Body of the loop of `FaultManager::faultfind` (faultmanager.cpp, lines 77-82):
`tryPop`, then `faulthandling`, then `logFault`. -/
def faultfind_iter (now : Str) (fm : FaultManager) : IterResult :=
  match fm.ch.faultsQueue with
  | [] => .continues fm
  | fault :: rest =>
    match faulthandling fault { fm.ch with faultsQueue := rest } with
    | .throws e ch => .terminated e { fm with ch := ch }
    | .ok ch => .continues (logFault now fault { fm with ch := ch })

/-! ## `CommTCPComponent`: dispatch of one inbound message -/

/-- The dispatch on one extracted message in `handleCommandClient`
(commtcpcomponent.cpp, lines 202-261), called the command router. -/
def route (message : Str) (st : Channels) : Res :=
  if (find message "SET_FPS".toList).isSome then
    Res.try st (substr message 8) fun payload =>
    Res.try st (stoi payload) fun fpsvalue =>
    let command := "SET_FPS:".toList ++ payload
    if fpsvalue < MIN_FPS_THRESHOLD ∨ fpsvalue > MAX_FPS_THRESHOLD then
      .ok (st.pushFault command)
    else
      .ok (st.pushCommand command)
  else if message = "TURN_OFF".toList then
    .ok (st.pushFault "TURN_OFF".toList)
  else if message = "TURN_ON".toList then
    .ok (st.pushCommand "TURN_ON".toList)
  else if (find message "SET_FDT".toList).isSome then
    Res.try st (substr message 8) fun payload =>
    let command := "SET_FDT:".toList ++ payload
    Res.try st (stoi payload) fun fdtvalue =>
    if fdtvalue < MIN_FDT_THRESHOLD ∨ fdtvalue > MAX_FDT_THRESHOLD then
      .ok (st.pushFault command)
    else
      .ok (st.pushCommand command)
  else if (find message "SET_SOURCE".toList).isSome then
    Res.try st (substr message 11) fun payload =>
    .ok (st.pushCommand ("SET_SOURCE:".toList ++ payload))
  else if (find message "SET_FD_MODEL".toList).isSome then
    let st1 := st.pushCommand "Clear Queue".toList
    Res.try st1 (substr message 13) fun payload =>
    .ok (st1.pushCommand ("SET_FD_MODEL:".toList ++ payload))
  else if (find message "SET_HP_MODEL".toList).isSome then
    Res.try st (substr message 13) fun payload =>
    .ok (st.pushCommand ("SET_HP_MODEL:".toList ++ payload))
  else if (find message "SET_EG_MODEL".toList).isSome then
    let st1 := st.pushCommand "Clear Queue".toList
    Res.try st1 (substr message 13) fun payload =>
    .ok (st1.pushCommand ("SET_EG_MODEL:".toList ++ payload))
  else
    .ok st

/-- The queues carried by a result, whether it is a normal return or a throw. -/
def Res.state : Res → Channels
  | .ok st => st
  | .throws _ st => st

/-- Routing a list of messages one at a time, in order, stopping at the first
exception. -/
def routeAll : List Str → Channels → Res
  | [], st => .ok st
  | m :: ms, st =>
    match route m st with
    | .ok st1 => routeAll ms st1
    | .throws e st1 => .throws e st1

/-! ## `CommTCPComponent`: the walk over one receive buffer -/

/-- The value of `sizeof(buffer)` in `handleCommandClient`. -/
def BUFFER_SIZE : Nat := 1024

/-- The byte held by a `char`. -/
def byteOf (c : Char) : Nat := c.toNat % 256

/-- The `int` whose object representation is the four bytes `b0 b1 b2 b3`
(little-endian host, two's complement: the Jetson is an AArch64 machine). -/
def decodeInt (b0 b1 b2 b3 : Nat) : Int :=
  let u := b0 + 256 * b1 + 65536 * b2 + 16777216 * b3
  if u < 2147483648 then (u : Int) else (u : Int) - 4294967296

/-- Byte `i` of `char buffer[1024] = {0}` after `recv` stored `received` at its
start: the bytes behind the received ones are zero. -/
def bufferByte (received : Str) (i : Nat) : Nat :=
  byteOf (received.getD i (Char.ofNat 0))

/-- The call `std::memcpy(&messageLength, ptr, sizeof(int))` at offset `ptr` of the buffer;
`none` when the four bytes are not all inside `buffer[1024]` (the read has no
defined result). -/
def readLength (received : Str) (ptr : Nat) : Option Int :=
  if ptr + 4 ≤ BUFFER_SIZE then
    some (decodeInt (bufferByte received ptr) (bufferByte received (ptr + 1))
      (bufferByte received (ptr + 2)) (bufferByte received (ptr + 3)))
  else none

/-- The queues during a walk, with two records kept for the proofs only: the
buffer offsets at which a length header was read, and the messages handed to the
router, both in order. -/
structure Walk where
  st : Channels
  reads : List Nat
  handed : List Str
  deriving DecidableEq, Repr

/-- How the walk over one receive buffer ends. -/
inductive WalkEnd where
  /-- The condition `ptr < end` became false. -/
  | finished
  /-- The `break` at "Incomplete message received". -/
  | incomplete
  /-- An exception was thrown (and is caught at the end of `handleCommandClient`). -/
  | threw (e : Exn)
  /-- A length header was read from outside `buffer[1024]`. -/
  | outOfBuffer
  deriving DecidableEq, Repr

/-- The loop `while (ptr < end)` of `handleCommandClient` (commtcpcomponent.cpp,
lines 185-262) over the buffer holding `received`; `ptr` is the offset of the
cursor in the buffer and `end` is `received.length`. One unit of `fuel` is used
per evaluation of the loop condition; `none` when the fuel runs out. -/
def walk (received : Str) : Nat → Nat → Walk → Option (WalkEnd × Walk)
  | 0, _, _ => none
  | fuel + 1, ptr, w =>
    if ptr < received.length then
      let w1 := { w with reads := w.reads ++ [ptr] }
      match readLength received ptr with
      | none => some (.outOfBuffer, w1)
      | some messageLength =>
        let ptr1 := ptr + 4
        if (ptr1 : Int) + messageLength > (received.length : Int) then
          some (.incomplete, w1)
        else if messageLength < 0 then
          -- `std::string(ptr, messageLength)` with a count above `max_size()`
          some (.threw .length_error, w1)
        else
          let message := (received.drop ptr1).take messageLength.toNat
          let w2 := { w1 with handed := w1.handed ++ [message] }
          match route message w2.st with
          | .throws e st1 => some (.threw e, { w2 with st := st1 })
          | .ok st1 => walk received fuel (ptr1 + messageLength.toNat) { w2 with st := st1 }
    else some (.finished, w)

/-- What `recv(clientSocket, buffer, sizeof(buffer), MSG_DONTWAIT)` gave: no data
(`bytesRead` is `-1` or `0`; `wouldBlock` tells whether `errno == EWOULDBLOCK`),
or `bytesRead > 0` bytes. -/
inductive RecvResult where
  | noData (wouldBlock : Bool)
  | data (received : Str)
  deriving DecidableEq, Repr

/-- How the inbound half of one pass through the loop of `handleCommandClient`
ends. -/
inductive HandlerStep where
  /-- The handler goes on to its next pass (and so to its next `recv`). -/
  | continues (st : Channels)
  /-- The socket is closed and the handler returns; `e` is the caught exception,
  if that is the reason. -/
  | returns (e : Option Exn) (st : Channels)
  /-- A length header was read from outside the buffer. -/
  | undefined (st : Channels)
  deriving DecidableEq, Repr

/-- The inbound half of one pass through the loop of `handleCommandClient`
(commtcpcomponent.cpp, lines 169-263, with the `catch` of lines 266-269). The walk
gets `received.length + 1` units of fuel, which is always enough. -/
def handleCommandClient_recv (r : RecvResult) (st : Channels) : Option HandlerStep :=
  match r with
  | .noData wouldBlock =>
    if wouldBlock then some (.continues st) else some (.returns none st)
  | .data received =>
    match walk received (received.length + 1) 0 ⟨st, [], []⟩ with
    | none => none
    | some (.finished, w) => some (.continues w.st)
    | some (.incomplete, w) => some (.continues w.st)
    | some (.threw e, w) => some (.returns (some e) w.st)
    | some (.outOfBuffer, w) => some (.undefined w.st)

/-- The four bytes of a frame header declaring the length `n` (`n < 2 ^ 31`): the
`int` `n` in host (little-endian) order. -/
def lengthHeader (n : Nat) : Str :=
  [Char.ofNat (n % 256), Char.ofNat (n / 256 % 256),
    Char.ofNat (n / 65536 % 256), Char.ofNat (n / 16777216 % 256)]

/-- An inbound frame as the client sends it: the header declaring the length of
the message, then the bytes of the message. -/
def encodeFrame (m : Str) : Str := lengthHeader m.length ++ m

/-- Frames packed back to back. -/
def encodeFrames : List Str → Str
  | [] => []
  | m :: ms => encodeFrame m ++ encodeFrames ms

/-- A string satisfies this when, if it is `SET_FPS:` or `SET_FDT:` followed by a
payload, the payload parses (by `stoi`) to an integer in `[0, 100]`. -/
def thresholdCommandInRange (c : Str) : Prop :=
  ∀ p : Str, c = "SET_FPS:".toList ++ p ∨ c = "SET_FDT:".toList ++ p →
    ∃ n : Int, stoi p = .ok n ∧ 0 ≤ n ∧ n ≤ 100

/-! ## `CommTCPComponent::serialize` -/

/-- Number of values of a `size_t` (64 bits): `SIZE_MAX + 1`. -/
def SIZE_RANGE : Nat := 18446744073709551616

/-- Number of values of a 32-bit word. -/
def WORD_RANGE : Nat := 4294967296

/-- The `k`-byte object representation of the unsigned value `n` taken modulo
`2 ^ (8 * k)`, in host (little-endian) order. -/
def leBytes : Nat → Nat → List Nat
  | 0, _ => []
  | k + 1, n => n % 256 :: leBytes k (n / 256)

/-- The unsigned value whose little-endian representation is `bs`. -/
def leValue : List Nat → Nat
  | [] => 0
  | b :: bs => b + 256 * leValue bs

/-- The bytes of a `float`, the `float` being given by its 32-bit pattern. -/
def floatBytes (w : Nat) : List Nat := leBytes 4 w

/-- The bytes of `row.data()`: `row.size() * sizeof(float)` bytes. -/
def rowBytes (row : List Nat) : List Nat := row.flatMap floatBytes

/-- The call `std::memcpy(buf + off, src, src.length)` on a buffer given as the list of its
bytes. Only the bytes that fall inside the buffer are kept; a copy that runs past
the end of the buffer writes outside the allocation, which the list cannot show
and the cursor of `serializeRun` does. -/
def memcpy (buf : List Nat) (off : Nat) (src : List Nat) : List Nat :=
  (buf.take off ++ src ++ buf.drop (off + src.length)).take buf.length

/-- The body of `serialize` with the write cursor: the buffer and the offset `ptr - buffer.data()`
when the function returns (commtcpcomponent.cpp, lines 273-295). A matrix is the
list of its rows, a `float` is its 32-bit pattern; `size_t` has 64 bits. -/
def serializeRun (data : List (List Nat)) : List Nat × Nat :=
  let rows := data.length
  let cols := match data with
    | [] => 0
    | row0 :: _ => row0.length
  let buffer := List.replicate ((8 * 2 + rows * cols * 4) % SIZE_RANGE) 0
  let ptr := 0
  let buffer := memcpy buffer ptr (leBytes 8 rows)
  let ptr := ptr + 8
  let buffer := memcpy buffer ptr (leBytes 8 cols)
  let ptr := ptr + 8
  data.foldl (fun (acc : List Nat × Nat) row =>
    (memcpy acc.1 acc.2 (rowBytes row), acc.2 + row.length * 4)) (buffer, ptr)

/-- The method `CommTCPComponent::serialize`: the returned byte vector. -/
def serialize (data : List (List Nat)) : List Nat := (serializeRun data).1

/-- Reads `n` consecutive 4-byte words. -/
def readWords : Nat → List Nat → List Nat
  | 0, _ => []
  | n + 1, bs => leValue (bs.take 4) :: readWords n (bs.drop 4)

/-- The reader of the outbound matrix format: the 8-byte row count, the 8-byte
column count, then `rows * cols` 4-byte words in row-major order. It returns the
row count, the column count and the words. -/
def deserialize (bytes : List Nat) : Nat × Nat × List Nat :=
  let rows := leValue (bytes.take 8)
  let cols := leValue ((bytes.drop 8).take 8)
  (rows, cols, readWords (rows * cols) (bytes.drop 16))

/-! ## `CommTCPComponent::handleFrameClient`: one frame -/

/-- The function `htonl` on the little-endian host, applied to a `size_t`: the
argument is converted to `uint32_t` (taken modulo `2 ^ 32`) and its four bytes are
put in the reverse order. -/
def htonl (x : Nat) : Nat :=
  let u := x % WORD_RANGE
  (u % 256) * 16777216 + (u / 256 % 256) * 65536 + (u / 65536 % 256) * 256 +
    u / 16777216 % 256

/-- How the handling of one frame in `handleFrameClient` ends: both `send` calls
went through, or the first or the second one returned `-1` or `0` (then a
`std::runtime_error` is thrown, the socket is closed and the handler returns). -/
inductive FrameEnd where
  | sent
  | sizeFailed
  | dataFailed
  deriving DecidableEq, Repr

/-- The body of the `if` in the loop of `handleFrameClient` (commtcpcomponent.cpp,
lines 120-138) for one frame. `buffer` is what `cv::imencode` produced, `sentSize`
and `sentData` are the values the two `send` calls return. The result lists the
byte strings handed to `send`, in order, and tells how the handling ends. -/
def handleFrameClient_frame (buffer : List Nat) (sentSize sentData : Int) :
    List (List Nat) × FrameEnd :=
  let bufferSize := htonl buffer.length
  let sizeBytes := leBytes 4 bufferSize
  if sentSize = -1 ∨ sentSize = 0 then ([sizeBytes], .sizeFailed)
  else if sentData = -1 ∨ sentData = 0 then ([sizeBytes, buffer], .dataFailed)
  else ([sizeBytes, buffer], .sent)

/-- The 4-byte big-endian (network order) encoding of `n < 2 ^ 32`. -/
def beBytes4 (n : Nat) : List Nat :=
  [n / 16777216 % 256, n / 65536 % 256, n / 256 % 256, n % 256]

/-! ## Lemmas on the string functions -/

theorem digitChar_spec (d : Nat) (h : d < 10) :
    isdigit (Nat.digitChar d) = true ∧ (Nat.digitChar d).toNat - 48 = d := by
  interval_cases d <;> decide

theorem digitsValue_snoc (ds : Str) (c : Char) :
    digitsValue (ds ++ [c]) = 10 * digitsValue ds + (c.toNat - 48) := by
  simp [digitsValue, List.foldl_append]

theorem toDigitsCore_spec : ∀ (fuel n : Nat) (acc : Str), n < fuel →
    ∃ ds : Str, Nat.toDigitsCore 10 fuel n acc = ds ++ acc ∧ ds ≠ [] ∧
      (∀ c ∈ ds, isdigit c = true) ∧ digitsValue ds = n := by
  intro fuel
  induction fuel with
  | zero => intro n acc h; omega
  | succ fuel ih =>
    intro n acc h
    have hd := digitChar_spec (n % 10) (Nat.mod_lt _ (by decide))
    by_cases h0 : n / 10 = 0
    · refine ⟨[Nat.digitChar (n % 10)], ?_, by simp, ?_, ?_⟩
      · simp [Nat.toDigitsCore, h0]
      · intro c hc
        simp only [List.mem_singleton] at hc
        rw [hc]; exact hd.1
      · have : digitsValue [Nat.digitChar (n % 10)] = (Nat.digitChar (n % 10)).toNat - 48 := by
          simp [digitsValue]
        rw [this, hd.2]
        omega
    · obtain ⟨ds, h1, _, h3, h4⟩ := ih (n / 10) (Nat.digitChar (n % 10) :: acc) (by omega)
      refine ⟨ds ++ [Nat.digitChar (n % 10)], ?_, by simp, ?_, ?_⟩
      · simp [Nat.toDigitsCore, h0, h1]
      · intro c hc
        rcases List.mem_append.mp hc with hc | hc
        · exact h3 c hc
        · simp only [List.mem_singleton] at hc
          rw [hc]; exact hd.1
      · rw [digitsValue_snoc, h4, hd.2]
        omega

theorem toDigits_spec (n : Nat) :
    Nat.toDigits 10 n ≠ [] ∧ (∀ c ∈ Nat.toDigits 10 n, isdigit c = true) ∧
      digitsValue (Nat.toDigits 10 n) = n := by
  obtain ⟨ds, h1, h2, h3, h4⟩ := toDigitsCore_spec (n + 1) n [] (by omega)
  have : Nat.toDigits 10 n = ds := by simpa [Nat.toDigits] using h1
  rw [this]
  exact ⟨h2, h3, h4⟩

theorem isdigit_not_special (c : Char) (h : isdigit c = true) :
    isspace c = false ∧ c ≠ '-' ∧ c ≠ '+' ∧ c ≠ 'S' := by
  refine ⟨?_, ?_, ?_, ?_⟩
  · cases hs : isspace c with
    | false => rfl
    | true =>
      exfalso
      simp only [isspace, Bool.or_eq_true, decide_eq_true_eq] at hs
      rcases hs with ((((hs | hs) | hs) | hs) | hs) | hs <;> subst hs <;> revert h <;> decide
  all_goals
    intro hc
    subst hc
    revert h
    decide

theorem stoi_digits (ds : Str) (hne : ds ≠ []) (hd : ∀ c ∈ ds, isdigit c = true)
    (hhi : (digitsValue ds : Int) ≤ INT_MAX) : stoi ds = .ok (digitsValue ds : Int) := by
  obtain ⟨c, r, rfl⟩ := List.exists_cons_of_ne_nil hne
  obtain ⟨hs, hm, hp, _⟩ := isdigit_not_special c (hd c (List.mem_cons_self _ _))
  have htw : List.takeWhile isdigit (c :: r) = c :: r :=
    List.takeWhile_eq_self_iff.mpr hd
  have hlo : ¬ ((digitsValue (c :: r) : Int) < INT_MIN) := by
    unfold INT_MIN; omega
  have hor : ¬ ((digitsValue (c :: r) : Int) < INT_MIN ∨ INT_MAX < (digitsValue (c :: r) : Int)) :=
    not_or.mpr ⟨hlo, not_lt.mpr hhi⟩
  simp only [stoi, List.dropWhile_cons, hs, Bool.false_eq_true, if_false, hm, hp, or_self, htw]
  rw [if_neg hne, if_neg hor]

theorem stoi_neg_digits (ds : Str) (hne : ds ≠ []) (hd : ∀ c ∈ ds, isdigit c = true)
    (hlo : INT_MIN ≤ -(digitsValue ds : Int)) :
    stoi ('-' :: ds) = .ok (-(digitsValue ds : Int)) := by
  have hs : isspace '-' = false := by decide
  have htw : List.takeWhile isdigit ds = ds := List.takeWhile_eq_self_iff.mpr hd
  have hhi : ¬ (INT_MAX < -(digitsValue ds : Int)) := by
    unfold INT_MAX; omega
  have hor : ¬ (-(digitsValue ds : Int) < INT_MIN ∨ INT_MAX < -(digitsValue ds : Int)) :=
    not_or.mpr ⟨not_lt.mpr hlo, hhi⟩
  simp only [stoi, List.dropWhile_cons, hs, Bool.false_eq_true, if_false, true_or, if_true, htw]
  rw [if_neg hne, if_neg hor]

/-- Parsing the decimal text of an `int` gives the `int` back. -/
theorem stoi_to_string (v : Int) (hlo : INT_MIN ≤ v) (hhi : v ≤ INT_MAX) :
    stoi (to_string v) = .ok v := by
  obtain ⟨h1, h2, h3⟩ := toDigits_spec v.natAbs
  by_cases hv : v < 0
  · have e : -((digitsValue (Nat.toDigits 10 v.natAbs) : Nat) : Int) = v := by
      rw [h3]; omega
    have := stoi_neg_digits _ h1 h2 (by rw [e]; exact hlo)
    rw [e] at this
    simpa [to_string, hv] using this
  · have e : ((digitsValue (Nat.toDigits 10 v.natAbs) : Nat) : Int) = v := by
      rw [h3]; omega
    have := stoi_digits _ h1 h2 (by rw [e]; exact hhi)
    rw [e] at this
    simpa [to_string, hv] using this

/-! ## `faulthandling` on the two threshold faults -/

/-- What `faulthandling` does with a fault `SET_FPS:<p>`, for any payload `p`. -/
theorem faulthandling_SET_FPS (p : Str) (st : Channels) :
    faulthandling ("SET_FPS:".toList ++ p) st =
      Res.try st (stoi p) fun fpsvalue =>
        if fpsvalue < MIN_FPS_THRESHOLD then
          .ok (st.pushCommand ("SET_FPS:".toList ++ to_string MIN_FPS_THRESHOLD))
        else if fpsvalue > MAX_FPS_THRESHOLD then
          .ok (st.pushCommand ("SET_FPS:".toList ++ to_string MAX_FPS_THRESHOLD))
        else .ok (st.pushCommand ("SET_FPS:".toList ++ p)) := by
  have h8 : ¬ (List.length p + 1 + 1 + 1 + 1 + 1 + 1 + 1 + 1 < 8) := by omega
  simp [faulthandling, find, substr, Res.try, h8]

theorem find_S_none (s rest : Str) (h : ∀ c ∈ s, c ≠ 'S') : find s ('S' :: rest) = none := by
  induction s with
  | nil => simp [find]
  | cons c cs ih =>
    have hc : ('S' == c) = false := by
      simpa using (h c (List.mem_cons_self _ _)).symm
    have := ih (fun d hd => h d (List.mem_cons_of_mem _ hd))
    simp [find, List.isPrefixOf, hc, this]

theorem to_string_no_S (v : Int) : ∀ c ∈ to_string v, c ≠ 'S' := by
  intro c hc
  obtain ⟨_, h2, _⟩ := toDigits_spec v.natAbs
  unfold to_string at hc
  split at hc
  · rcases List.mem_cons.mp hc with hc | hc
    · rw [hc]; decide
    · exact (isdigit_not_special c (h2 c hc)).2.2.2
  · exact (isdigit_not_special c (h2 c hc)).2.2.2

/-- What `faulthandling` does with a fault `SET_FDT:<p>` whose payload does not
contain `SET_FPS`. -/
theorem faulthandling_SET_FDT (p : Str) (st : Channels)
    (hp : find p "SET_FPS".toList = none) :
    faulthandling ("SET_FDT:".toList ++ p) st =
      Res.try st (stoi p) fun fdtvalue =>
        if fdtvalue < MIN_FDT_THRESHOLD then
          .ok (st.pushCommand ("SET_FDT:".toList ++ to_string MIN_FDT_THRESHOLD))
        else if fdtvalue > MAX_FDT_THRESHOLD then
          .ok (st.pushCommand ("SET_FDT:".toList ++ to_string MAX_FDT_THRESHOLD))
        else .ok (st.pushCommand ("SET_FDT:".toList ++ p)) := by
  have h8 : ¬ (List.length p + 1 + 1 + 1 + 1 + 1 + 1 + 1 + 1 < 8) := by omega
  have hp2 : find p ['S', 'E', 'T', '_', 'F', 'P', 'S'] = none := by simpa using hp
  simp [faulthandling, find, substr, Res.try, h8, hp2]

/-! ## Claims about `faulthandling` -/

/-- C1: for every `int` value `v`, `faulthandling` on the fault `SET_FPS:` followed
by the decimal text of `v` returns normally having pushed exactly one string onto
the command queue (and nothing onto the fault queue); that string is `SET_FPS:`
followed by the decimal text of some `w` with `0 ≤ w ≤ 100`, and `w = v` whenever
`0 ≤ v ≤ 100`. -/
theorem C1_faulthandling_SET_FPS_clamps (v : Int) (hlo : INT_MIN ≤ v) (hhi : v ≤ INT_MAX)
    (st : Channels) :
    ∃ w : Int,
      faulthandling ("SET_FPS:".toList ++ to_string v) st =
          .ok ⟨st.commandsQueue ++ ["SET_FPS:".toList ++ to_string w], st.faultsQueue⟩ ∧
        0 ≤ w ∧ w ≤ 100 ∧ (0 ≤ v → v ≤ 100 → w = v) := by
  rw [faulthandling_SET_FPS, stoi_to_string v hlo hhi]
  simp only [Res.try, MIN_FPS_THRESHOLD, MAX_FPS_THRESHOLD, Channels.pushCommand]
  by_cases h0 : v < 0
  · exact ⟨0, by rw [if_pos h0], le_refl _, by decide, fun h _ => absurd h0 (not_lt.mpr h)⟩
  · by_cases h1 : v > 100
    · exact ⟨100, by rw [if_neg h0, if_pos h1], by decide, le_refl _,
        fun _ h => absurd h1 (not_lt.mpr h)⟩
    · exact ⟨v, by rw [if_neg h0, if_neg h1], not_lt.mp h0, not_lt.mp h1, fun _ _ => rfl⟩

/-- C1 at `v = 42` (kept), `v = 150` (clamped to 100) is covered by the same
statement; here the instance `v = 42` from the empty queues. -/
theorem C1_faulthandling_SET_FPS_clamps_witness :
    (INT_MIN ≤ 42 ∧ (42 : Int) ≤ INT_MAX) ∧
    ∃ w : Int,
      faulthandling ("SET_FPS:".toList ++ to_string 42) ⟨[], []⟩ =
          .ok ⟨[] ++ ["SET_FPS:".toList ++ to_string w], []⟩ ∧
        0 ≤ w ∧ w ≤ 100 ∧ ((0 : Int) ≤ 42 → (42 : Int) ≤ 100 → w = 42) :=
  ⟨by decide, C1_faulthandling_SET_FPS_clamps 42 (by decide) (by decide) ⟨[], []⟩⟩

/-- C2: for every `int` value `v`, `faulthandling` on the fault `SET_FDT:` followed
by the decimal text of `v` returns normally having pushed exactly one string onto
the command queue (and nothing onto the fault queue); that string is `SET_FDT:`
followed by the decimal text of some `w` with `0 ≤ w ≤ 100`, and `w = v` whenever
`0 ≤ v ≤ 100`. -/
theorem C2_faulthandling_SET_FDT_clamps (v : Int) (hlo : INT_MIN ≤ v) (hhi : v ≤ INT_MAX)
    (st : Channels) :
    ∃ w : Int,
      faulthandling ("SET_FDT:".toList ++ to_string v) st =
          .ok ⟨st.commandsQueue ++ ["SET_FDT:".toList ++ to_string w], st.faultsQueue⟩ ∧
        0 ≤ w ∧ w ≤ 100 ∧ (0 ≤ v → v ≤ 100 → w = v) := by
  rw [faulthandling_SET_FDT _ _ (find_S_none _ _ (to_string_no_S v)),
    stoi_to_string v hlo hhi]
  simp only [Res.try, MIN_FDT_THRESHOLD, MAX_FDT_THRESHOLD, Channels.pushCommand]
  by_cases h0 : v < 0
  · exact ⟨0, by rw [if_pos h0], le_refl _, by decide, fun h _ => absurd h0 (not_lt.mpr h)⟩
  · by_cases h1 : v > 100
    · exact ⟨100, by rw [if_neg h0, if_pos h1], by decide, le_refl _,
        fun _ h => absurd h1 (not_lt.mpr h)⟩
    · exact ⟨v, by rw [if_neg h0, if_neg h1], not_lt.mp h0, not_lt.mp h1, fun _ _ => rfl⟩

/-- C2 at `v = -7`, from the empty queues. -/
theorem C2_faulthandling_SET_FDT_clamps_witness :
    (INT_MIN ≤ -7 ∧ (-7 : Int) ≤ INT_MAX) ∧
    ∃ w : Int,
      faulthandling ("SET_FDT:".toList ++ to_string (-7)) ⟨[], []⟩ =
          .ok ⟨[] ++ ["SET_FDT:".toList ++ to_string w], []⟩ ∧
        0 ≤ w ∧ w ≤ 100 ∧ ((0 : Int) ≤ -7 → (-7 : Int) ≤ 100 → w = -7) :=
  ⟨by decide, C2_faulthandling_SET_FDT_clamps (-7) (by decide) (by decide) ⟨[], []⟩⟩

/-! ## The router followed by arbitration -/

theorem find_drop_none (needle : Str) : ∀ (k : Nat) (s : Str),
    find s needle = none → find (s.drop k) needle = none := by
  intro k
  induction k with
  | zero => intro s h; simpa using h
  | succ k ih =>
    intro s h
    cases s with
    | nil => simpa using h
    | cons c cs =>
      apply ih
      unfold find at h
      split at h
      · exact absurd h (by simp)
      · simpa using h

theorem substr_eq_ok {s p : Str} {k : Nat} (h : substr s k = .ok p) : p = s.drop k := by
  unfold substr at h
  split at h
  · exact absurd h (by simp)
  · simpa using h.symm

theorem inRange_SET_FPS (p : Str) (n : Int) (h : stoi p = .ok n) (h0 : 0 ≤ n) (h1 : n ≤ 100) :
    thresholdCommandInRange ("SET_FPS:".toList ++ p) := by
  intro q hq
  rcases hq with hq | hq
  · rw [← List.append_cancel_left hq]
    exact ⟨n, h, h0, h1⟩
  · simp at hq

theorem inRange_SET_FDT (p : Str) (n : Int) (h : stoi p = .ok n) (h0 : 0 ≤ n) (h1 : n ≤ 100) :
    thresholdCommandInRange ("SET_FDT:".toList ++ p) := by
  intro q hq
  rcases hq with hq | hq
  · simp at hq
  · rw [← List.append_cancel_left hq]
    exact ⟨n, h, h0, h1⟩

theorem arbitrate_SET_FPS (p : Str) (n : Int) (h : stoi p = .ok n) (st2 : Channels) :
    ∃ cs2 : List Str,
      (faulthandling ("SET_FPS:".toList ++ p) st2).state =
          ⟨st2.commandsQueue ++ cs2, st2.faultsQueue⟩ ∧
        ∀ c ∈ cs2, thresholdCommandInRange c := by
  rw [faulthandling_SET_FPS, h]
  simp only [Res.try, MIN_FPS_THRESHOLD, MAX_FPS_THRESHOLD, Channels.pushCommand]
  by_cases h0 : n < 0
  · refine ⟨["SET_FPS:".toList ++ to_string 0], by rw [if_pos h0]; rfl, ?_⟩
    intro c hc
    rw [List.mem_singleton.mp hc]
    exact inRange_SET_FPS _ 0 (stoi_to_string 0 (by decide) (by decide)) (by decide) (by decide)
  · by_cases h1 : n > 100
    · refine ⟨["SET_FPS:".toList ++ to_string 100], by rw [if_neg h0, if_pos h1]; rfl, ?_⟩
      intro c hc
      rw [List.mem_singleton.mp hc]
      exact inRange_SET_FPS _ 100 (stoi_to_string 100 (by decide) (by decide)) (by decide)
        (by decide)
    · refine ⟨["SET_FPS:".toList ++ p], by rw [if_neg h0, if_neg h1]; rfl, ?_⟩
      intro c hc
      rw [List.mem_singleton.mp hc]
      exact inRange_SET_FPS _ n h (not_lt.mp h0) (not_lt.mp h1)

theorem arbitrate_SET_FDT (p : Str) (n : Int) (h : stoi p = .ok n)
    (hp : find p "SET_FPS".toList = none) (st2 : Channels) :
    ∃ cs2 : List Str,
      (faulthandling ("SET_FDT:".toList ++ p) st2).state =
          ⟨st2.commandsQueue ++ cs2, st2.faultsQueue⟩ ∧
        ∀ c ∈ cs2, thresholdCommandInRange c := by
  rw [faulthandling_SET_FDT _ _ hp, h]
  simp only [Res.try, MIN_FDT_THRESHOLD, MAX_FDT_THRESHOLD, Channels.pushCommand]
  by_cases h0 : n < 0
  · refine ⟨["SET_FDT:".toList ++ to_string 0], by rw [if_pos h0]; rfl, ?_⟩
    intro c hc
    rw [List.mem_singleton.mp hc]
    exact inRange_SET_FDT _ 0 (stoi_to_string 0 (by decide) (by decide)) (by decide) (by decide)
  · by_cases h1 : n > 100
    · refine ⟨["SET_FDT:".toList ++ to_string 100], by rw [if_neg h0, if_pos h1]; rfl, ?_⟩
      intro c hc
      rw [List.mem_singleton.mp hc]
      exact inRange_SET_FDT _ 100 (stoi_to_string 100 (by decide) (by decide)) (by decide)
        (by decide)
    · refine ⟨["SET_FDT:".toList ++ p], by rw [if_neg h0, if_neg h1]; rfl, ?_⟩
      intro c hc
      rw [List.mem_singleton.mp hc]
      exact inRange_SET_FDT _ n h (not_lt.mp h0) (not_lt.mp h1)

/-- C3: for every message `m` and all queue contents, the router appends some
strings `cs` to the command queue and some strings `fs` to the fault queue (this
also when it ends in an exception); every string of `cs` that is `SET_FPS:` or
`SET_FDT:` followed by a payload has a payload that parses to an integer in
`[0, 100]`; and for every fault in `fs`, whatever the queues hold when it is
arbitrated, `faulthandling` appends to the command queue only strings with that
same property and leaves the fault queue alone. -/
theorem C3_threshold_commands_in_range (m : Str) (st : Channels) :
    ∃ cs fs : List Str,
      (route m st).state = ⟨st.commandsQueue ++ cs, st.faultsQueue ++ fs⟩ ∧
      (∀ c ∈ cs, thresholdCommandInRange c) ∧
      (∀ f ∈ fs, ∀ st2 : Channels, ∃ cs2 : List Str,
        (faulthandling f st2).state = ⟨st2.commandsQueue ++ cs2, st2.faultsQueue⟩ ∧
        ∀ c ∈ cs2, thresholdCommandInRange c) := by
  unfold route
  split_ifs with hfps hoff hon hfdt hsrc hfd hhp heg
  · -- SET_FPS
    cases hs : substr m 8 with
    | error e => exact ⟨[], [], by simp [Res.try, Res.state], by simp, by simp⟩
    | ok p =>
      simp only [Res.try]
      cases hi : stoi p with
      | error e => exact ⟨[], [], by simp [Res.state], by simp, by simp⟩
      | ok n =>
        simp only []
        split_ifs with hr
        · refine ⟨[], ["SET_FPS:".toList ++ p], by simp [Res.state, Channels.pushFault],
            by simp, ?_⟩
          intro f hf st2
          rw [List.mem_singleton.mp hf]
          exact arbitrate_SET_FPS p n hi st2
        · refine ⟨["SET_FPS:".toList ++ p], [], by simp [Res.state, Channels.pushCommand],
            ?_, by simp⟩
          intro c hc
          rw [List.mem_singleton.mp hc]
          simp only [MIN_FPS_THRESHOLD, MAX_FPS_THRESHOLD, not_or, not_lt, gt_iff_lt] at hr
          exact inRange_SET_FPS p n hi hr.1 hr.2
  · -- TURN_OFF
    refine ⟨[], ["TURN_OFF".toList], by simp [Res.state, Channels.pushFault], by simp, ?_⟩
    intro f hf st2
    rw [List.mem_singleton.mp hf]
    refine ⟨["TURN_OFF".toList], by simp [faulthandling, find, Res.state, Channels.pushCommand],
      ?_⟩
    intro c hc q hq
    rw [List.mem_singleton.mp hc] at hq
    simp at hq
  · -- TURN_ON
    refine ⟨["TURN_ON".toList], [], by simp [Res.state, Channels.pushCommand], ?_, by simp⟩
    intro c hc q hq
    rw [List.mem_singleton.mp hc] at hq
    simp at hq
  · -- SET_FDT
    cases hs : substr m 8 with
    | error e => exact ⟨[], [], by simp [Res.try, Res.state], by simp, by simp⟩
    | ok p =>
      simp only [Res.try]
      cases hi : stoi p with
      | error e => exact ⟨[], [], by simp [Res.state], by simp, by simp⟩
      | ok n =>
        simp only []
        split_ifs with hr
        · refine ⟨[], ["SET_FDT:".toList ++ p], by simp [Res.state, Channels.pushFault],
            by simp, ?_⟩
          intro f hf st2
          rw [List.mem_singleton.mp hf]
          have hnone : find p "SET_FPS".toList = none := by
            rw [substr_eq_ok hs]
            exact find_drop_none _ 8 m (by simpa using hfps)
          exact arbitrate_SET_FDT p n hi hnone st2
        · refine ⟨["SET_FDT:".toList ++ p], [], by simp [Res.state, Channels.pushCommand],
            ?_, by simp⟩
          intro c hc
          rw [List.mem_singleton.mp hc]
          simp only [MIN_FDT_THRESHOLD, MAX_FDT_THRESHOLD, not_or, not_lt, gt_iff_lt] at hr
          exact inRange_SET_FDT p n hi hr.1 hr.2
  · -- SET_SOURCE
    cases hs : substr m 11 with
    | error e => exact ⟨[], [], by simp [Res.try, Res.state], by simp, by simp⟩
    | ok p =>
      refine ⟨["SET_SOURCE:".toList ++ p], [],
        by simp [Res.try, Res.state, Channels.pushCommand], ?_, by simp⟩
      intro c hc q hq
      rw [List.mem_singleton.mp hc] at hq
      simp at hq
  · -- SET_FD_MODEL
    cases hs : substr m 13 with
    | error e =>
      refine ⟨["Clear Queue".toList], [],
        by simp [Res.try, Res.state, Channels.pushCommand], ?_, by simp⟩
      intro c hc q hq
      rw [List.mem_singleton.mp hc] at hq
      simp at hq
    | ok p =>
      refine ⟨["Clear Queue".toList, "SET_FD_MODEL:".toList ++ p], [],
        by simp [Res.try, Res.state, Channels.pushCommand], ?_, by simp⟩
      intro c hc q hq
      simp only [List.mem_cons, List.mem_singleton, List.not_mem_nil, or_false] at hc
      rcases hc with hc | hc <;> rw [hc] at hq <;> simp at hq
  · -- SET_HP_MODEL
    cases hs : substr m 13 with
    | error e => exact ⟨[], [], by simp [Res.try, Res.state], by simp, by simp⟩
    | ok p =>
      refine ⟨["SET_HP_MODEL:".toList ++ p], [],
        by simp [Res.try, Res.state, Channels.pushCommand], ?_, by simp⟩
      intro c hc q hq
      rw [List.mem_singleton.mp hc] at hq
      simp at hq
  · -- SET_EG_MODEL
    cases hs : substr m 13 with
    | error e =>
      refine ⟨["Clear Queue".toList], [],
        by simp [Res.try, Res.state, Channels.pushCommand], ?_, by simp⟩
      intro c hc q hq
      rw [List.mem_singleton.mp hc] at hq
      simp at hq
    | ok p =>
      refine ⟨["Clear Queue".toList, "SET_EG_MODEL:".toList ++ p], [],
        by simp [Res.try, Res.state, Channels.pushCommand], ?_, by simp⟩
      intro c hc q hq
      simp only [List.mem_cons, List.mem_singleton, List.not_mem_nil, or_false] at hc
      rcases hc with hc | hc <;> rw [hc] at hq <;> simp at hq
  · -- unknown command
    exact ⟨[], [], by simp [Res.state], by simp, by simp⟩

/-- What the router does with a message `SET_FPS:<p>`, for any payload `p`. -/
theorem route_SET_FPS (p : Str) (st : Channels) :
    route ("SET_FPS:".toList ++ p) st =
      Res.try st (stoi p) fun fpsvalue =>
        if fpsvalue < MIN_FPS_THRESHOLD ∨ fpsvalue > MAX_FPS_THRESHOLD then
          .ok (st.pushFault ("SET_FPS:".toList ++ p))
        else .ok (st.pushCommand ("SET_FPS:".toList ++ p)) := by
  have h8 : ¬ (List.length p + 1 + 1 + 1 + 1 + 1 + 1 + 1 + 1 < 8) := by omega
  simp [route, find, substr, Res.try, h8]

/-- C4: for every `int` value `v`, with `t` the decimal text of `v`: if `v > 100`
the router, given `SET_FPS:t`, pushes exactly `SET_FPS:t` onto the fault queue and
nothing onto the command queue, and `faulthandling` on that fault pushes exactly
`SET_FPS:100` onto the command queue; if `v < 0` the same holds with `SET_FPS:0`. -/
theorem C4_route_then_arbitrate_clamps (v : Int) (hlo : INT_MIN ≤ v) (hhi : v ≤ INT_MAX)
    (st st2 : Channels) :
    (100 < v →
      route ("SET_FPS:".toList ++ to_string v) st =
          .ok ⟨st.commandsQueue, st.faultsQueue ++ ["SET_FPS:".toList ++ to_string v]⟩ ∧
        faulthandling ("SET_FPS:".toList ++ to_string v) st2 =
          .ok ⟨st2.commandsQueue ++ ["SET_FPS:100".toList], st2.faultsQueue⟩) ∧
    (v < 0 →
      route ("SET_FPS:".toList ++ to_string v) st =
          .ok ⟨st.commandsQueue, st.faultsQueue ++ ["SET_FPS:".toList ++ to_string v]⟩ ∧
        faulthandling ("SET_FPS:".toList ++ to_string v) st2 =
          .ok ⟨st2.commandsQueue ++ ["SET_FPS:0".toList], st2.faultsQueue⟩) := by
  rw [route_SET_FPS, faulthandling_SET_FPS, stoi_to_string v hlo hhi]
  simp only [Res.try, MIN_FPS_THRESHOLD, MAX_FPS_THRESHOLD, Channels.pushCommand,
    Channels.pushFault]
  constructor
  · intro h
    have h0 : ¬ v < 0 := by omega
    rw [if_pos (Or.inr h), if_neg h0, if_pos h]
    exact ⟨rfl, rfl⟩
  · intro h
    rw [if_pos (Or.inl h), if_pos h]
    exact ⟨rfl, rfl⟩

/-- C4 at `v = 150` (clamped to 100) and at `v = -5` (clamped to 0), from the
empty queues. -/
theorem C4_route_then_arbitrate_clamps_witness :
    (to_string 150 = "150".toList ∧ to_string (-5) = "-5".toList) ∧
    (route ("SET_FPS:".toList ++ to_string 150) ⟨[], []⟩ =
        .ok ⟨[], [] ++ ["SET_FPS:".toList ++ to_string 150]⟩ ∧
      faulthandling ("SET_FPS:".toList ++ to_string 150) ⟨[], []⟩ =
        .ok ⟨[] ++ ["SET_FPS:100".toList], []⟩) ∧
    (route ("SET_FPS:".toList ++ to_string (-5)) ⟨[], []⟩ =
        .ok ⟨[], [] ++ ["SET_FPS:".toList ++ to_string (-5)]⟩ ∧
      faulthandling ("SET_FPS:".toList ++ to_string (-5)) ⟨[], []⟩ =
        .ok ⟨[] ++ ["SET_FPS:0".toList], []⟩) :=
  ⟨by decide,
    (C4_route_then_arbitrate_clamps 150 (by decide) (by decide) ⟨[], []⟩ ⟨[], []⟩).1 (by decide),
    (C4_route_then_arbitrate_clamps (-5) (by decide) (by decide) ⟨[], []⟩ ⟨[], []⟩).2
      (by decide)⟩

/-- C7: the router, given `TURN_OFF`, pushes exactly `TURN_OFF` onto the fault
queue and nothing onto the command queue; `faulthandling` on the fault `TURN_OFF`
pushes exactly `TURN_OFF` onto the command queue; both whatever the queues hold. -/
theorem C7_TURN_OFF_via_fault_queue (st st2 : Channels) :
    route "TURN_OFF".toList st =
        .ok ⟨st.commandsQueue, st.faultsQueue ++ ["TURN_OFF".toList]⟩ ∧
      faulthandling "TURN_OFF".toList st2 =
        .ok ⟨st2.commandsQueue ++ ["TURN_OFF".toList], st2.faultsQueue⟩ := by
  constructor
  · simp [route, find, Channels.pushFault]
  · simp [faulthandling, find, Channels.pushCommand]

/-! ## One pass of the `faultfind` loop -/

/-- A fault `SET_FPS:<p>` whose payload `stoi` rejects: the exception leaves the
pass of the loop, after the fault was popped, with no command pushed and nothing
logged. -/
theorem faultfind_iter_parse_failure (p : Str) (e : Exn) (h : stoi p = .error e)
    (now : Str) (fm : FaultManager) (rest : List Str)
    (hq : fm.ch.faultsQueue = ("SET_FPS:".toList ++ p) :: rest) :
    faultfind_iter now fm =
      .terminated e { fm with ch := { fm.ch with faultsQueue := rest } } := by
  unfold faultfind_iter
  rw [hq]
  simp only []
  rw [faulthandling_SET_FPS, h]
  simp [Res.try]

/-- C5 (the code at the failing input): with the fault `SET_FPS:abc`, and likewise
with `SET_FDT:abc`, at the head of the fault queue and the log file open, one pass
of the `faultfind` loop ends with `std::invalid_argument` leaving `faultfind`: the
fault has been popped, no command was pushed, and the fault log is still empty. -/
theorem C5_nonnumeric_payload_escapes_faultfind :
    faultfind_iter "2024-05-01T10:00:00".toList
        ⟨⟨[], ["SET_FPS:abc".toList]⟩, true, true, []⟩ =
      .terminated .invalid_argument ⟨⟨[], []⟩, true, true, []⟩ ∧
    faultfind_iter "2024-05-01T10:00:00".toList
        ⟨⟨[], ["SET_FDT:abc".toList]⟩, true, true, []⟩ =
      .terminated .invalid_argument ⟨⟨[], []⟩, true, true, []⟩ := by
  decide

/-- C6 as stated fails: with the log file not open, the fault `TURN_OFF` is popped
and arbitrated (the command `TURN_OFF` is pushed) and the pass ends normally, but
the fault log has gained no line. -/
theorem C6_counterexample_log_not_open :
    faultfind_iter "2024-05-01T10:00:00".toList
        ⟨⟨[], ["TURN_OFF".toList]⟩, true, false, []⟩ =
      .continues ⟨⟨["TURN_OFF".toList], []⟩, true, false, []⟩ := by
  decide

/-- C6, amended: for every fault token popped by `faultfind` on which
`faulthandling` returns normally, the pass ends normally and, if the log file is
open, the fault log has gained exactly one line, `[<timestamp>] ` followed by the
token unchanged, whichever branch `faulthandling` took and whether or not it
pushed a command; if the log file is not open the fault log is unchanged. -/
theorem C6_one_log_line_per_fault (now fault : Str) (rest : List Str) (fm : FaultManager)
    (ch1 : Channels) (hq : fm.ch.faultsQueue = fault :: rest)
    (hret : faulthandling fault ⟨fm.ch.commandsQueue, rest⟩ = .ok ch1) :
    faultfind_iter now fm =
      .continues ⟨ch1, fm.running, fm.logOpen,
        if fm.logOpen then fm.faultLog ++ ["[".toList ++ now ++ "] ".toList ++ fault]
        else fm.faultLog⟩ := by
  unfold faultfind_iter
  rw [hq]
  simp only []
  rw [hret]
  cases hopen : fm.logOpen <;> simp [logFault, hopen]

/-- C6 (amended) at the fault `Velocity_fault`, for which no command is pushed,
with the log file open and one earlier line in the log. -/
theorem C6_one_log_line_per_fault_witness :
    faultfind_iter "2024-05-01T10:00:00".toList
        ⟨⟨[], ["Velocity_fault".toList, "TURN_OFF".toList]⟩, true, true, ["earlier".toList]⟩ =
      .continues ⟨⟨[], ["TURN_OFF".toList]⟩, true, true,
        ["earlier".toList, "[2024-05-01T10:00:00] Velocity_fault".toList]⟩ :=
  C6_one_log_line_per_fault "2024-05-01T10:00:00".toList "Velocity_fault".toList
    ["TURN_OFF".toList]
    ⟨⟨[], ["Velocity_fault".toList, "TURN_OFF".toList]⟩, true, true, ["earlier".toList]⟩
    ⟨[], ["TURN_OFF".toList]⟩ rfl (by decide)

/-! ## The walk over a buffer of packed frames -/

set_option maxRecDepth 100000 in
theorem byteOf_ofNat : ∀ x < 256, byteOf (Char.ofNat x) = x := by decide

theorem getD_append_add {α : Type} (pre l : List α) (k : Nat) (d : α) :
    (pre ++ l).getD (pre.length + k) d = l.getD k d := by
  induction pre with
  | nil => simp
  | cons a pre ih => simpa [Nat.add_right_comm] using ih

theorem readLength_header (pre post : Str) (n : Nat) (hn : n < 2147483648)
    (hbuf : pre.length + 4 ≤ 1024) :
    readLength (pre ++ lengthHeader n ++ post) pre.length = some (n : Int) := by
  have e0 : bufferByte (pre ++ lengthHeader n ++ post) pre.length = n % 256 := by
    have := getD_append_add pre (lengthHeader n ++ post) 0 (Char.ofNat 0)
    rw [Nat.add_zero, ← List.append_assoc] at this
    rw [bufferByte, this]
    simp only [lengthHeader, List.cons_append, List.getD_cons_zero]
    exact byteOf_ofNat _ (Nat.mod_lt _ (by decide))
  have e1 : bufferByte (pre ++ lengthHeader n ++ post) (pre.length + 1) = n / 256 % 256 := by
    have := getD_append_add pre (lengthHeader n ++ post) 1 (Char.ofNat 0)
    rw [← List.append_assoc] at this
    rw [bufferByte, this]
    simp only [lengthHeader, List.cons_append, List.getD_cons_succ, List.getD_cons_zero]
    exact byteOf_ofNat _ (Nat.mod_lt _ (by decide))
  have e2 : bufferByte (pre ++ lengthHeader n ++ post) (pre.length + 2) = n / 65536 % 256 := by
    have := getD_append_add pre (lengthHeader n ++ post) 2 (Char.ofNat 0)
    rw [← List.append_assoc] at this
    rw [bufferByte, this]
    simp only [lengthHeader, List.cons_append, List.getD_cons_succ, List.getD_cons_zero]
    exact byteOf_ofNat _ (Nat.mod_lt _ (by decide))
  have e3 : bufferByte (pre ++ lengthHeader n ++ post) (pre.length + 3) =
      n / 16777216 % 256 := by
    have := getD_append_add pre (lengthHeader n ++ post) 3 (Char.ofNat 0)
    rw [← List.append_assoc] at this
    rw [bufferByte, this]
    simp only [lengthHeader, List.cons_append, List.getD_cons_succ, List.getD_cons_zero]
    exact byteOf_ofNat _ (Nat.mod_lt _ (by decide))
  have hu : n % 256 + 256 * (n / 256 % 256) + 65536 * (n / 65536 % 256) +
      16777216 * (n / 16777216 % 256) = n := by omega
  unfold readLength
  rw [if_pos (by unfold BUFFER_SIZE; exact hbuf), e0, e1, e2, e3]
  simp only [decodeInt, hu, if_pos hn]

theorem lengthHeader_length (n : Nat) : (lengthHeader n).length = 4 := rfl

theorem encodeFrame_length (m : Str) : (encodeFrame m).length = 4 + m.length := by
  simp [encodeFrame, lengthHeader_length]

theorem encodeFrames_length_ge (ms : List Str) : ms.length ≤ (encodeFrames ms).length := by
  induction ms with
  | nil => simp [encodeFrames]
  | cons m ms ih =>
    simp only [encodeFrames, List.length_append, encodeFrame_length, List.length_cons]
    omega

/-- One pass of the walk over a complete frame: the message of the frame is handed
to the router and the cursor moves behind the frame. -/
theorem walk_frame (pre m post : Str) (fuel : Nat) (w : Walk)
    (hbuf : pre.length + 4 + m.length ≤ 1024) :
    walk (pre ++ encodeFrame m ++ post) (fuel + 1) pre.length w =
      match route m w.st with
      | .throws e st1 =>
        some (.threw e, ⟨st1, w.reads ++ [pre.length], w.handed ++ [m]⟩)
      | .ok st1 =>
        walk (pre ++ encodeFrame m ++ post) fuel (pre.length + 4 + m.length)
          ⟨st1, w.reads ++ [pre.length], w.handed ++ [m]⟩ := by
  have hread : readLength (pre ++ encodeFrame m ++ post) pre.length = some (m.length : Int) := by
    have := readLength_header pre (m ++ post) m.length (by omega) (by omega)
    simpa [encodeFrame, List.append_assoc] using this
  have hlt : pre.length < (pre ++ encodeFrame m ++ post).length := by
    simp only [List.length_append, encodeFrame_length]; omega
  have hfit : ¬ (((pre.length + 4 : Nat) : Int) + (m.length : Int) >
      ((pre ++ encodeFrame m ++ post).length : Int)) := by
    simp only [List.length_append, encodeFrame_length]; omega
  have hnn : ¬ ((m.length : Int) < 0) := by omega
  have hmsg : ((pre ++ encodeFrame m ++ post).drop (pre.length + 4)).take m.length = m := by
    have e : pre ++ encodeFrame m ++ post = (pre ++ lengthHeader m.length) ++ (m ++ post) := by
      simp [encodeFrame, List.append_assoc]
    have hl : (pre ++ lengthHeader m.length).length = pre.length + 4 := by
      simp [lengthHeader_length]
    rw [e, ← hl, List.drop_left, List.take_left]
  rw [walk, if_pos hlt, hread]
  simp only [if_neg hfit, if_neg hnn, Int.toNat_ofNat, hmsg]

/-- The walk over a run of complete frames whose messages are routed without an
exception: it hands the messages to the router one by one, in order, and arrives
behind the last frame with the queues as routing the messages one at a time
leaves them. -/
theorem walk_frames (post : Str) : ∀ (ms : List Str) (pre : Str) (k : Nat) (w : Walk)
    (st1 : Channels), routeAll ms w.st = .ok st1 →
    pre.length + (encodeFrames ms).length ≤ 1024 →
    ∃ reads : List Nat,
      walk (pre ++ encodeFrames ms ++ post) (ms.length + k) pre.length w =
        walk (pre ++ encodeFrames ms ++ post) k (pre.length + (encodeFrames ms).length)
          ⟨st1, w.reads ++ reads, w.handed ++ ms⟩ := by
  intro ms
  induction ms with
  | nil =>
    intro pre k w st1 h _
    simp only [routeAll, Res.ok.injEq] at h
    refine ⟨[], ?_⟩
    cases w
    simp only at h
    simp [encodeFrames, h]
  | cons m ms ih =>
    intro pre k w st1 h hlen
    simp only [encodeFrames, List.length_append, encodeFrame_length] at hlen
    have e1 : pre ++ encodeFrames (m :: ms) ++ post =
        pre ++ encodeFrame m ++ (encodeFrames ms ++ post) := by
      simp [encodeFrames, List.append_assoc]
    have e2 : pre ++ encodeFrame m ++ (encodeFrames ms ++ post) =
        (pre ++ encodeFrame m) ++ encodeFrames ms ++ post := by
      simp [List.append_assoc]
    have hl : (pre ++ encodeFrame m).length = pre.length + 4 + m.length := by
      simp only [List.length_append, encodeFrame_length]; omega
    have hfuel : (m :: ms).length + k = (ms.length + k) + 1 := by
      simp only [List.length_cons]; omega
    rw [e1, hfuel, walk_frame pre m (encodeFrames ms ++ post) (ms.length + k) w (by omega)]
    unfold routeAll at h
    cases hr : route m w.st with
    | throws e st2 => rw [hr] at h; exact absurd h (by simp)
    | ok st2 =>
      rw [hr] at h
      simp only at h ⊢
      obtain ⟨reads, hw⟩ := ih (pre ++ encodeFrame m) k
        ⟨st2, w.reads ++ [pre.length], w.handed ++ [m]⟩ st1 h (by rw [hl]; omega)
      refine ⟨pre.length :: reads, ?_⟩
      rw [e2, ← hl, hw]
      simp only [encodeFrames, List.length_append, encodeFrame_length, List.append_assoc,
        List.singleton_append]
      congr 1
      omega

/-- The walk returns: with more fuel than bytes between the cursor and the end of
the received data it never runs out of fuel, since every pass that goes on moves
the cursor forward by at least the four header bytes. -/
theorem walk_isSome (received : Str) : ∀ (fuel ptr : Nat) (w : Walk),
    received.length - ptr < fuel → (walk received fuel ptr w).isSome = true := by
  intro fuel
  induction fuel with
  | zero => intro ptr w h; omega
  | succ fuel ih =>
    intro ptr w h
    rw [walk]
    split_ifs with hlt
    · cases readLength received ptr with
      | none => rfl
      | some messageLength =>
        simp only []
        split_ifs with h1 h2
        · rfl
        · rfl
        · cases route ((received.drop (ptr + 4)).take messageLength.toNat)
              w.st with
          | throws e st1 => rfl
          | ok st1 => exact ih _ _ (by omega)
    · rfl

/-- The inbound half of a pass of the handler always has a result. -/
theorem handleCommandClient_recv_isSome (r : RecvResult) (st : Channels) :
    (handleCommandClient_recv r st).isSome = true := by
  cases r with
  | noData wouldBlock => cases wouldBlock <;> rfl
  | data received =>
    have h := walk_isSome received (received.length + 1) 0 ⟨st, [], []⟩ (by omega)
    cases hw : walk received (received.length + 1) 0 ⟨st, [], []⟩ with
    | none => rw [hw] at h; exact absurd h (by simp)
    | some res =>
      obtain ⟨e, w⟩ := res
      simp only [handleCommandClient_recv, hw]
      cases e <;> rfl

theorem walk_at_end (received : Str) (k : Nat) (w : Walk) :
    walk received (k + 1) received.length w = some (.finished, w) := by
  rw [walk, if_neg (lt_irrefl _)]

/-- C8: for every list `ms` of messages packed back to back as frames in one
receive of at most 1024 bytes, such that routing the messages one at a time from
the queues `st` raises no exception and leaves the queues `st1`: the walk ends at
the end of the buffer having handed the router exactly the messages of `ms`, in
order, with the queues equal to `st1`, and the handler goes on to its next pass. -/
theorem C8_packed_frames_routed_in_order (ms : List Str) (st st1 : Channels)
    (hlen : (encodeFrames ms).length ≤ 1024) (hroute : routeAll ms st = .ok st1) :
    (∃ reads : List Nat,
      walk (encodeFrames ms) ((encodeFrames ms).length + 1) 0 ⟨st, [], []⟩ =
        some (.finished, ⟨st1, reads, ms⟩)) ∧
    handleCommandClient_recv (.data (encodeFrames ms)) st = some (.continues st1) := by
  have hge := encodeFrames_length_ge ms
  obtain ⟨reads, hw⟩ := walk_frames [] ms [] ((encodeFrames ms).length - ms.length + 1)
    ⟨st, [], []⟩ st1 hroute (by simpa using hlen)
  have hfuel : ms.length + ((encodeFrames ms).length - ms.length + 1) =
      (encodeFrames ms).length + 1 := by omega
  simp only [List.nil_append, List.append_nil, List.length_nil, Nat.zero_add, hfuel] at hw
  rw [walk_at_end] at hw
  refine ⟨⟨reads, hw⟩, ?_⟩
  simp only [handleCommandClient_recv, hw]

/-- C8 at the two messages `SET_FPS:50`, `TURN_OFF` from the empty queues: the
command queue gets `SET_FPS:50`, the fault queue gets `TURN_OFF`, and after the
next pass of the `faultfind` loop the command queue holds `SET_FPS:50` followed by
`TURN_OFF`. -/
theorem C8_packed_frames_routed_in_order_witness :
    ((∃ reads : List Nat,
      walk (encodeFrames ["SET_FPS:50".toList, "TURN_OFF".toList])
          ((encodeFrames ["SET_FPS:50".toList, "TURN_OFF".toList]).length + 1) 0
          ⟨⟨[], []⟩, [], []⟩ =
        some (.finished, ⟨⟨["SET_FPS:50".toList], ["TURN_OFF".toList]⟩, reads,
          ["SET_FPS:50".toList, "TURN_OFF".toList]⟩)) ∧
      handleCommandClient_recv (.data (encodeFrames ["SET_FPS:50".toList, "TURN_OFF".toList]))
          ⟨[], []⟩ =
        some (.continues ⟨["SET_FPS:50".toList], ["TURN_OFF".toList]⟩)) ∧
    faultfind_iter "2024-05-01T10:00:00".toList
        ⟨⟨["SET_FPS:50".toList], ["TURN_OFF".toList]⟩, true, true, []⟩ =
      .continues ⟨⟨["SET_FPS:50".toList, "TURN_OFF".toList], []⟩, true, true,
        ["[2024-05-01T10:00:00] TURN_OFF".toList]⟩ :=
  ⟨C8_packed_frames_routed_in_order ["SET_FPS:50".toList, "TURN_OFF".toList] ⟨[], []⟩
      ⟨["SET_FPS:50".toList], ["TURN_OFF".toList]⟩ (by decide) (by decide),
    by decide⟩

/-- The pass of the walk that meets a header declaring more bytes than remain
behind it: the walk stops at the `break`, with the queues untouched. -/
theorem walk_overlong (pre rest : Str) (L fuel : Nat) (w : Walk) (hL : rest.length < L)
    (hint : L < 2147483648) (hbuf : pre.length + 4 ≤ 1024) :
    walk (pre ++ lengthHeader L ++ rest) (fuel + 1) pre.length w =
      some (.incomplete, ⟨w.st, w.reads ++ [pre.length], w.handed⟩) := by
  have hlt : pre.length < (pre ++ lengthHeader L ++ rest).length := by
    simp only [List.length_append, lengthHeader_length]; omega
  have hover : ((pre.length + 4 : Nat) : Int) + (L : Int) >
      ((pre ++ lengthHeader L ++ rest).length : Int) := by
    simp only [List.length_append, lengthHeader_length]; omega
  rw [walk, if_pos hlt, readLength_header pre rest L hint hbuf]
  simp only [if_pos hover]

/-- C9 as stated fails: a buffer holding the complete frame `SET_FPS:abc`, then a
header declaring 20 bytes with only 10 bytes behind it. The router throws
`std::invalid_argument` on the first frame, the handler closes the socket and
returns instead of going on to its next receive. -/
theorem C9_counterexample_earlier_frame_throws :
    handleCommandClient_recv
        (.data (encodeFrame "SET_FPS:abc".toList ++ lengthHeader 20 ++ "0123456789".toList))
        ⟨[], []⟩ =
      some (.returns (some .invalid_argument) ⟨[], []⟩) := by
  decide

/-- C9, amended: for every receive buffer of at most 1024 bytes made of complete
frames `ms`, whose messages are routed one at a time without an exception (from
the queues `st` to the queues `st1`), followed by a header that declares a length
`L` greater than the number of bytes `rest` behind it: the walk stops at that
frame without an exception, having handed the router exactly the messages of `ms`;
the queues are `st1`, so nothing was pushed for that frame or for the bytes behind
it; and the handler goes on to its next pass. -/
theorem C9_overlong_frame_dropped (ms : List Str) (L : Nat) (rest : Str)
    (st st1 : Channels) (hL : rest.length < L) (hint : L < 2147483648)
    (hlen : (encodeFrames ms ++ lengthHeader L ++ rest).length ≤ 1024)
    (hroute : routeAll ms st = .ok st1) :
    (∃ reads : List Nat,
      walk (encodeFrames ms ++ lengthHeader L ++ rest)
          ((encodeFrames ms ++ lengthHeader L ++ rest).length + 1) 0 ⟨st, [], []⟩ =
        some (.incomplete, ⟨st1, reads, ms⟩)) ∧
    handleCommandClient_recv (.data (encodeFrames ms ++ lengthHeader L ++ rest)) st =
      some (.continues st1) := by
  have hge := encodeFrames_length_ge ms
  simp only [List.length_append, lengthHeader_length] at hlen
  obtain ⟨reads, hw⟩ := walk_frames (lengthHeader L ++ rest) ms []
    ((encodeFrames ms).length + 4 + rest.length - ms.length + 1)
    ⟨st, [], []⟩ st1 hroute (by simp only [List.length_nil]; omega)
  have hfuel : ms.length + ((encodeFrames ms).length + 4 + rest.length - ms.length + 1) =
      (encodeFrames ms ++ lengthHeader L ++ rest).length + 1 := by
    simp only [List.length_append, lengthHeader_length]; omega
  simp only [List.nil_append, List.length_nil, Nat.zero_add, hfuel,
    ← List.append_assoc] at hw
  rw [walk_overlong (encodeFrames ms) rest L _ _ hL hint (by omega)] at hw
  simp only [List.nil_append] at hw
  refine ⟨⟨_, hw⟩, ?_⟩
  simp only [handleCommandClient_recv, hw]

/-- C9 (amended) at the frame `TURN_ON` followed by a header declaring 20 bytes
with 10 bytes behind it, from the empty queues. -/
theorem C9_overlong_frame_dropped_witness :
    (∃ reads : List Nat,
      walk (encodeFrames ["TURN_ON".toList] ++ lengthHeader 20 ++ "0123456789".toList)
          ((encodeFrames ["TURN_ON".toList] ++ lengthHeader 20 ++ "0123456789".toList).length
            + 1) 0 ⟨⟨[], []⟩, [], []⟩ =
        some (.incomplete, ⟨⟨["TURN_ON".toList], []⟩, reads, ["TURN_ON".toList]⟩)) ∧
    handleCommandClient_recv
        (.data (encodeFrames ["TURN_ON".toList] ++ lengthHeader 20 ++ "0123456789".toList))
        ⟨[], []⟩ =
      some (.continues ⟨["TURN_ON".toList], []⟩) :=
  C9_overlong_frame_dropped ["TURN_ON".toList] 20 "0123456789".toList ⟨[], []⟩
    ⟨["TURN_ON".toList], []⟩ (by decide) (by decide) (by decide) (by decide)

/-! ## `serialize` -/

theorem leBytes_length (k n : Nat) : (leBytes k n).length = k := by
  induction k generalizing n with
  | zero => rfl
  | succ k ih => simp [leBytes, ih]

theorem leValue_leBytes (k n : Nat) : leValue (leBytes k n) = n % 256 ^ k := by
  induction k generalizing n with
  | zero => simp [leBytes, leValue, Nat.mod_one]
  | succ k ih => rw [leBytes, leValue, ih, pow_succ', Nat.mod_mul]

theorem rowBytes_length (row : List Nat) : (rowBytes row).length = row.length * 4 := by
  induction row with
  | nil => rfl
  | cons x xs ih =>
    simp only [rowBytes, List.flatMap_cons, List.length_append, floatBytes, leBytes_length,
      List.length_cons] at ih ⊢
    omega

/-- A copy to the end of what is written so far, with room for it. -/
theorem memcpy_at_end (written src : List Nat) (n : Nat) (h : src.length ≤ n) :
    memcpy (written ++ List.replicate n 0) written.length src =
      (written ++ src) ++ List.replicate (n - src.length) 0 := by
  unfold memcpy
  rw [List.take_left, List.drop_append, List.drop_replicate]
  apply List.take_of_length_le
  simp only [List.length_append, List.length_replicate]
  omega

theorem flatMap_rowBytes_length (rs : List (List Nat)) (cols : Nat)
    (h : ∀ row ∈ rs, row.length = cols) :
    (rs.flatMap rowBytes).length = rs.length * cols * 4 := by
  induction rs with
  | nil => simp
  | cons r rs ih =>
    have hr := h r (List.mem_cons_self _ _)
    have := ih (fun row hrow => h row (List.mem_cons_of_mem _ hrow))
    simp only [List.flatMap_cons, List.length_append, rowBytes_length, this, hr,
      List.length_cons]
    ring

/-- The copy loop of `serialize`, started behind `written` with `n` zero bytes of
room left, when the rows fit in that room. -/
theorem serialize_loop (rs : List (List Nat)) : ∀ (written : List Nat) (n : Nat),
    (rs.flatMap rowBytes).length ≤ n →
    rs.foldl (fun (acc : List Nat × Nat) row =>
        (memcpy acc.1 acc.2 (rowBytes row), acc.2 + row.length * 4))
        (written ++ List.replicate n 0, written.length) =
      ((written ++ rs.flatMap rowBytes) ++
          List.replicate (n - (rs.flatMap rowBytes).length) 0,
        written.length + (rs.flatMap rowBytes).length) := by
  induction rs with
  | nil => intro written n _; simp
  | cons r rs ih =>
    intro written n h
    simp only [List.flatMap_cons, List.length_append] at h
    rw [List.foldl_cons]
    simp only []
    rw [memcpy_at_end written (rowBytes r) n (by omega)]
    have hl : written.length + r.length * 4 = (written ++ rowBytes r).length := by
      simp [rowBytes_length]
    rw [hl, ih (written ++ rowBytes r) (n - (rowBytes r).length) (by omega)]
    simp only [List.flatMap_cons, List.length_append, List.append_assoc, Nat.sub_sub,
      Nat.add_assoc]

theorem flatMap_rowBytes_eq (rs : List (List Nat)) :
    rs.flatMap rowBytes = rs.flatten.flatMap floatBytes := by
  induction rs with
  | nil => rfl
  | cons r rs ih => simp [List.flatMap_append, ih, rowBytes]

theorem flatten_length_rect (rs : List (List Nat)) (cols : Nat)
    (h : ∀ row ∈ rs, row.length = cols) : rs.flatten.length = rs.length * cols := by
  induction rs with
  | nil => simp
  | cons r rs ih =>
    have hr := h r (List.mem_cons_self _ _)
    have := ih (fun row hrow => h row (List.mem_cons_of_mem _ hrow))
    simp only [List.flatten_cons, List.length_append, this, hr, List.length_cons]
    ring

/-- The run of `serialize` on a rectangular matrix whose buffer size does not
wrap: the buffer is the two counts followed by the rows, and the cursor ends at
the end of the buffer. -/
theorem serializeRun_rect (data : List (List Nat)) (cols : Nat) (hne : data ≠ [])
    (hrect : ∀ row ∈ data, row.length = cols)
    (hsize : 16 + 4 * data.length * cols < SIZE_RANGE) :
    serializeRun data =
      (leBytes 8 data.length ++ leBytes 8 cols ++ data.flatMap rowBytes,
        16 + 4 * data.length * cols) := by
  obtain ⟨r0, rs, rfl⟩ := List.exists_cons_of_ne_nil hne
  have hc : r0.length = cols := hrect r0 (List.mem_cons_self _ _)
  have htot := flatMap_rowBytes_length (r0 :: rs) cols hrect
  have hmul : 4 * (r0 :: rs).length * cols = (r0 :: rs).length * cols * 4 := by ring
  rw [hmul] at hsize ⊢
  have hmod : (8 * 2 + (r0 :: rs).length * cols * 4) % SIZE_RANGE =
      (r0 :: rs).length * cols * 4 + 8 + 8 := by
    rw [Nat.mod_eq_of_lt (by omega)]; omega
  have h1 := memcpy_at_end [] (leBytes 8 (r0 :: rs).length)
    ((r0 :: rs).length * cols * 4 + 8 + 8) (by rw [leBytes_length]; omega)
  have h2 := memcpy_at_end (leBytes 8 (r0 :: rs).length) (leBytes 8 cols)
    ((r0 :: rs).length * cols * 4 + 8) (by rw [leBytes_length]; omega)
  have h3 := serialize_loop (r0 :: rs) (leBytes 8 (r0 :: rs).length ++ leBytes 8 cols)
    ((r0 :: rs).length * cols * 4) (by omega)
  simp only [List.nil_append, List.length_nil, leBytes_length, Nat.add_sub_cancel,
    List.length_append] at h1 h2 h3
  unfold serializeRun
  simp only [hc, hmod, Nat.zero_add, h1, h2, h3, htot, Nat.sub_self, List.replicate_zero,
    List.append_nil]

theorem readWords_flatMap (ws tail : List Nat) (h : ∀ x ∈ ws, x < WORD_RANGE) :
    readWords ws.length (ws.flatMap floatBytes ++ tail) = ws := by
  induction ws with
  | nil => rfl
  | cons x xs ih =>
    have hx : x < WORD_RANGE := h x (List.mem_cons_self _ _)
    have hl : (floatBytes x).length = 4 := leBytes_length 4 x
    have e : (x :: xs).flatMap floatBytes ++ tail =
        floatBytes x ++ (xs.flatMap floatBytes ++ tail) := by
      simp [List.flatMap_cons, List.append_assoc]
    rw [List.length_cons, readWords, e, ← hl, List.take_left, List.drop_left,
      ih (fun y hy => h y (List.mem_cons_of_mem _ hy))]
    unfold floatBytes
    rw [leValue_leBytes, Nat.mod_eq_of_lt (by unfold WORD_RANGE at hx; omega)]

theorem take_append_of_length {α : Type} {l1 l2 : List α} {n : Nat} (h : l1.length = n) :
    (l1 ++ l2).take n = l1 := by
  subst h; exact List.take_left _ _

theorem drop_append_of_length {α : Type} {l1 l2 : List α} {n : Nat} (h : l1.length = n) :
    (l1 ++ l2).drop n = l2 := by
  subst h; exact List.drop_left _ _

/-- C10: for every rectangular matrix with at least one row, every row of length
`cols`, whose `float`s are 32-bit patterns and whose counts and buffer size are
`size_t` values: `serialize` returns exactly `16 + 4 * rows * cols` bytes, namely
the 8-byte row count, the 8-byte column count, then the 4 bytes of each `float` in
row-major order; and reading the two counts and then `rows * cols` 4-byte words
from these bytes gives back the row count, the column count and the same `float`
patterns. -/
theorem C10_serialize_layout_and_roundtrip (data : List (List Nat)) (cols : Nat)
    (hne : data ≠ []) (hrect : ∀ row ∈ data, row.length = cols)
    (hword : ∀ row ∈ data, ∀ x ∈ row, x < WORD_RANGE)
    (hrows : data.length < SIZE_RANGE)
    (hsize : 16 + 4 * data.length * cols < SIZE_RANGE) :
    serialize data =
        leBytes 8 data.length ++ leBytes 8 cols ++ data.flatten.flatMap floatBytes ∧
      (serialize data).length = 16 + 4 * data.length * cols ∧
      deserialize (serialize data) = (data.length, cols, data.flatten) := by
  have hrun := serializeRun_rect data cols hne hrect hsize
  have hser : serialize data =
      leBytes 8 data.length ++ leBytes 8 cols ++ data.flatten.flatMap floatBytes := by
    rw [serialize, hrun, flatMap_rowBytes_eq]
  have hflat := flatten_length_rect data cols hrect
  have hpos : 0 < data.length := List.length_pos.mpr hne
  have hcols : cols < SIZE_RANGE := by
    have : cols ≤ data.length * cols := Nat.le_mul_of_pos_left cols hpos
    have hmul : 4 * data.length * cols = 4 * (data.length * cols) := by ring
    rw [hmul] at hsize
    omega
  have hw : ∀ x ∈ data.flatten, x < WORD_RANGE := by
    intro x hx
    obtain ⟨row, hrow, hxr⟩ := List.mem_flatten.mp hx
    exact hword row hrow x hxr
  refine ⟨hser, ?_, ?_⟩
  · rw [serialize, hrun, List.length_append, List.length_append, leBytes_length,
      leBytes_length, flatMap_rowBytes_length data cols hrect]
    ring
  · have h8a : (leBytes 8 data.length).length = 8 := leBytes_length _ _
    have h8b : (leBytes 8 cols).length = 8 := leBytes_length _ _
    have h16 : (leBytes 8 data.length ++ leBytes 8 cols).length = 16 := by
      rw [List.length_append, h8a, h8b]
    have t1 : (serialize data).take 8 = leBytes 8 data.length := by
      rw [hser, List.append_assoc]
      exact take_append_of_length h8a
    have t2 : ((serialize data).drop 8).take 8 = leBytes 8 cols := by
      rw [hser, List.append_assoc, drop_append_of_length h8a]
      exact take_append_of_length h8b
    have t3 : (serialize data).drop 16 = data.flatten.flatMap floatBytes := by
      rw [hser]
      exact drop_append_of_length h16
    have v1 : leValue (leBytes 8 data.length) = data.length := by
      rw [leValue_leBytes]
      exact Nat.mod_eq_of_lt (by unfold SIZE_RANGE at hrows; omega)
    have v2 : leValue (leBytes 8 cols) = cols := by
      rw [leValue_leBytes]
      exact Nat.mod_eq_of_lt (by unfold SIZE_RANGE at hcols; omega)
    have v3 := readWords_flatMap data.flatten [] hw
    rw [List.append_nil, hflat] at v3
    simp only [deserialize, t1, t2, t3, v1, v2, v3]

/-- C10 at a matrix with 3 rows and 4 columns (the `float`s 1.0, 2.0, -1.0, 0.5,
0.0, ... given by their bit patterns). -/
theorem C10_serialize_layout_and_roundtrip_witness :
    serialize [[1065353216, 1073741824, 3212836864, 1056964608],
        [0, 2147483648, 4294967295, 1], [2139095040, 4286578688, 2143289344, 1078530011]] =
      leBytes 8 3 ++ leBytes 8 4 ++
        [1065353216, 1073741824, 3212836864, 1056964608, 0, 2147483648, 4294967295, 1,
          2139095040, 4286578688, 2143289344, 1078530011].flatMap floatBytes ∧
    (serialize [[1065353216, 1073741824, 3212836864, 1056964608],
        [0, 2147483648, 4294967295, 1],
        [2139095040, 4286578688, 2143289344, 1078530011]]).length = 16 + 4 * 3 * 4 ∧
    deserialize (serialize [[1065353216, 1073741824, 3212836864, 1056964608],
        [0, 2147483648, 4294967295, 1], [2139095040, 4286578688, 2143289344, 1078530011]]) =
      (3, 4, [1065353216, 1073741824, 3212836864, 1056964608, 0, 2147483648, 4294967295, 1,
        2139095040, 4286578688, 2143289344, 1078530011]) :=
  C10_serialize_layout_and_roundtrip
    [[1065353216, 1073741824, 3212836864, 1056964608], [0, 2147483648, 4294967295, 1],
      [2139095040, 4286578688, 2143289344, 1078530011]] 4
    (by decide) (by decide) (by decide) (by decide) (by decide)

/-! ## The router, branch by branch -/

/-- C11: for every `int` value `v`, with `t` its decimal text, the router given
`SET_FPS:t` pushes exactly one string, the message itself: onto the command queue
(the fault queue unchanged) when `0 ≤ v ≤ 100`, and onto the fault queue (the
command queue unchanged) when `v < 0` or `v > 100`. -/
theorem C11_route_SET_FPS (v : Int) (hlo : INT_MIN ≤ v) (hhi : v ≤ INT_MAX)
    (st : Channels) :
    (0 ≤ v ∧ v ≤ 100 →
      route ("SET_FPS:".toList ++ to_string v) st =
        .ok ⟨st.commandsQueue ++ ["SET_FPS:".toList ++ to_string v], st.faultsQueue⟩) ∧
    (v < 0 ∨ v > 100 →
      route ("SET_FPS:".toList ++ to_string v) st =
        .ok ⟨st.commandsQueue, st.faultsQueue ++ ["SET_FPS:".toList ++ to_string v]⟩) := by
  rw [route_SET_FPS, stoi_to_string v hlo hhi]
  simp only [Res.try, MIN_FPS_THRESHOLD, MAX_FPS_THRESHOLD, Channels.pushCommand,
    Channels.pushFault]
  constructor
  · intro h
    have hn : ¬ (v < 0 ∨ v > 100) := by omega
    rw [if_neg hn]
  · intro h
    rw [if_pos h]

/-- C11 at `v = 30` (command queue) and `v = 101` (fault queue), from the empty
queues. -/
theorem C11_route_SET_FPS_witness :
    (to_string 30 = "30".toList ∧ to_string 101 = "101".toList) ∧
    route ("SET_FPS:".toList ++ to_string 30) ⟨[], []⟩ =
      .ok ⟨[] ++ ["SET_FPS:".toList ++ to_string 30], []⟩ ∧
    route ("SET_FPS:".toList ++ to_string 101) ⟨[], []⟩ =
      .ok ⟨[], [] ++ ["SET_FPS:".toList ++ to_string 101]⟩ :=
  ⟨by decide,
    (C11_route_SET_FPS 30 (by decide) (by decide) ⟨[], []⟩).1 (by decide),
    (C11_route_SET_FPS 101 (by decide) (by decide) ⟨[], []⟩).2 (by decide)⟩

/-- What the router does with a message `SET_FDT:<p>` whose payload does not
contain `SET_FPS`. -/
theorem route_SET_FDT (p : Str) (st : Channels) (hp : find p "SET_FPS".toList = none) :
    route ("SET_FDT:".toList ++ p) st =
      Res.try st (stoi p) fun fdtvalue =>
        if fdtvalue < MIN_FDT_THRESHOLD ∨ fdtvalue > MAX_FDT_THRESHOLD then
          .ok (st.pushFault ("SET_FDT:".toList ++ p))
        else .ok (st.pushCommand ("SET_FDT:".toList ++ p)) := by
  have h8 : ¬ (List.length p + 1 + 1 + 1 + 1 + 1 + 1 + 1 + 1 < 8) := by omega
  have hp2 : find p ['S', 'E', 'T', '_', 'F', 'P', 'S'] = none := by simpa using hp
  simp [route, find, substr, Res.try, h8, hp2]

/-- C12 as stated fails: the payload `5SET_FPS` parses to the integer 5, yet the
router, given `SET_FDT:5SET_FPS`, takes its `SET_FPS` branch and pushes
`SET_FPS:5SET_FPS`, which is not the message and does not begin with `SET_FDT:`. -/
theorem C12_counterexample_payload_contains_SET_FPS :
    stoi "5SET_FPS".toList = .ok 5 ∧
    route "SET_FDT:5SET_FPS".toList ⟨[], []⟩ = .ok ⟨["SET_FPS:5SET_FPS".toList], []⟩ :=
  ⟨rfl, by decide⟩

/-- C12, amended: for every message `SET_FDT:<p>` whose payload `p` parses to an
integer `n` and does not contain `SET_FPS`, the router pushes exactly one string,
the message itself (which begins with `SET_FDT:`): onto the command queue (the
fault queue unchanged) when `0 ≤ n ≤ 100`, and onto the fault queue (the command
queue unchanged) otherwise. -/
theorem C12_route_SET_FDT (p : Str) (n : Int) (st : Channels) (hparse : stoi p = .ok n)
    (hp : find p "SET_FPS".toList = none) :
    (0 ≤ n ∧ n ≤ 100 →
      route ("SET_FDT:".toList ++ p) st =
        .ok ⟨st.commandsQueue ++ ["SET_FDT:".toList ++ p], st.faultsQueue⟩) ∧
    (¬ (0 ≤ n ∧ n ≤ 100) →
      route ("SET_FDT:".toList ++ p) st =
        .ok ⟨st.commandsQueue, st.faultsQueue ++ ["SET_FDT:".toList ++ p]⟩) := by
  rw [route_SET_FDT p st hp, hparse]
  simp only [Res.try, MIN_FDT_THRESHOLD, MAX_FDT_THRESHOLD, Channels.pushCommand,
    Channels.pushFault]
  constructor
  · intro h
    have hn : ¬ (n < 0 ∨ n > 100) := by omega
    rw [if_neg hn]
  · intro h
    have hn : n < 0 ∨ n > 100 := by omega
    rw [if_pos hn]

/-- C12 (amended) at the payloads `50` (command queue) and `250` (fault queue),
from the empty queues. -/
theorem C12_route_SET_FDT_witness :
    route ("SET_FDT:".toList ++ "50".toList) ⟨[], []⟩ =
      .ok ⟨[] ++ ["SET_FDT:".toList ++ "50".toList], []⟩ ∧
    route ("SET_FDT:".toList ++ "250".toList) ⟨[], []⟩ =
      .ok ⟨[], [] ++ ["SET_FDT:".toList ++ "250".toList]⟩ :=
  ⟨(C12_route_SET_FDT "50".toList 50 ⟨[], []⟩ rfl (by decide)).1 (by decide),
    (C12_route_SET_FDT "250".toList 250 ⟨[], []⟩ rfl (by decide)).2 (by decide)⟩

/-- The router on `SET_FD_MODEL:<v>` when `v` contains none of the texts tested by
the earlier branches. -/
theorem route_SET_FD_MODEL (v : Str) (st : Channels)
    (h1 : find v "SET_FPS".toList = none) (h2 : find v "SET_FDT".toList = none)
    (h3 : find v "SET_SOURCE".toList = none) :
    route ("SET_FD_MODEL:".toList ++ v) st =
      .ok ⟨st.commandsQueue ++ ["Clear Queue".toList, "SET_FD_MODEL:".toList ++ v],
        st.faultsQueue⟩ := by
  simp only [String.toList] at h1 h2 h3
  simp [route, find, substr, Res.try, h1, h2, h3, Channels.pushCommand]
  split_ifs with h
  · omega
  · rfl

/-- The router on `SET_EG_MODEL:<v>` when `v` contains none of the texts tested by
the earlier branches. -/
theorem route_SET_EG_MODEL (v : Str) (st : Channels)
    (h1 : find v "SET_FPS".toList = none) (h2 : find v "SET_FDT".toList = none)
    (h3 : find v "SET_SOURCE".toList = none) (h4 : find v "SET_FD_MODEL".toList = none)
    (h5 : find v "SET_HP_MODEL".toList = none) :
    route ("SET_EG_MODEL:".toList ++ v) st =
      .ok ⟨st.commandsQueue ++ ["Clear Queue".toList, "SET_EG_MODEL:".toList ++ v],
        st.faultsQueue⟩ := by
  simp only [String.toList] at h1 h2 h3 h4 h5
  simp [route, find, substr, Res.try, h1, h2, h3, h4, h5, Channels.pushCommand]
  split_ifs with h
  · omega
  · rfl

/-- The router on `SET_SOURCE:<v>` when `v` contains none of the texts tested by
the earlier branches. -/
theorem route_SET_SOURCE (v : Str) (st : Channels)
    (h1 : find v "SET_FPS".toList = none) (h2 : find v "SET_FDT".toList = none) :
    route ("SET_SOURCE:".toList ++ v) st =
      .ok ⟨st.commandsQueue ++ ["SET_SOURCE:".toList ++ v], st.faultsQueue⟩ := by
  simp only [String.toList] at h1 h2
  simp [route, find, substr, Res.try, h1, h2, Channels.pushCommand]
  split_ifs with h
  · omega
  · rfl

/-- The router on `SET_HP_MODEL:<v>` when `v` contains none of the texts tested by
the earlier branches. -/
theorem route_SET_HP_MODEL (v : Str) (st : Channels)
    (h1 : find v "SET_FPS".toList = none) (h2 : find v "SET_FDT".toList = none)
    (h3 : find v "SET_SOURCE".toList = none) (h4 : find v "SET_FD_MODEL".toList = none) :
    route ("SET_HP_MODEL:".toList ++ v) st =
      .ok ⟨st.commandsQueue ++ ["SET_HP_MODEL:".toList ++ v], st.faultsQueue⟩ := by
  simp only [String.toList] at h1 h2 h3 h4
  simp [route, find, substr, Res.try, h1, h2, h3, h4, Channels.pushCommand]
  split_ifs with h
  · omega
  · rfl

/-- C13 as stated fails: for the payload `SET_SOURCE` the router, given
`SET_FD_MODEL:SET_SOURCE`, takes its `SET_SOURCE` branch: it pushes the single
string `SET_SOURCE:L:SET_SOURCE`, with no `Clear Queue` and no `SET_FD_MODEL:`
string. -/
theorem C13_counterexample_payload_names_earlier_command :
    route ("SET_FD_MODEL:".toList ++ "SET_SOURCE".toList) ⟨[], []⟩ =
      .ok ⟨["SET_SOURCE:L:SET_SOURCE".toList], []⟩ := by
  decide

/-- C13, amended: for every payload `v` that contains none of `SET_FPS`, `SET_FDT`,
`SET_SOURCE`, the router given `SET_FD_MODEL:` followed by `v` pushes onto the
command queue exactly `Clear Queue` and then the message, and nothing onto the
fault queue; and for every payload `v` that contains none of `SET_FPS`, `SET_FDT`,
`SET_SOURCE`, `SET_FD_MODEL`, `SET_HP_MODEL`, the same holds for `SET_EG_MODEL:`
followed by `v`. -/
theorem C13_route_model_commands_clear_queue (v : Str) (st : Channels) :
    (find v "SET_FPS".toList = none → find v "SET_FDT".toList = none →
      find v "SET_SOURCE".toList = none →
      route ("SET_FD_MODEL:".toList ++ v) st =
        .ok ⟨st.commandsQueue ++ ["Clear Queue".toList, "SET_FD_MODEL:".toList ++ v],
          st.faultsQueue⟩) ∧
    (find v "SET_FPS".toList = none → find v "SET_FDT".toList = none →
      find v "SET_SOURCE".toList = none → find v "SET_FD_MODEL".toList = none →
      find v "SET_HP_MODEL".toList = none →
      route ("SET_EG_MODEL:".toList ++ v) st =
        .ok ⟨st.commandsQueue ++ ["Clear Queue".toList, "SET_EG_MODEL:".toList ++ v],
          st.faultsQueue⟩) :=
  ⟨route_SET_FD_MODEL v st, route_SET_EG_MODEL v st⟩

/-- C13 (amended) at the payload `YOLOv3 Tiny`, from a command queue that already
holds one string. -/
theorem C13_route_model_commands_clear_queue_witness :
    route ("SET_FD_MODEL:".toList ++ "YOLOv3 Tiny".toList) ⟨["TURN_ON".toList], []⟩ =
      .ok ⟨["TURN_ON".toList] ++
        ["Clear Queue".toList, "SET_FD_MODEL:".toList ++ "YOLOv3 Tiny".toList], []⟩ ∧
    route ("SET_EG_MODEL:".toList ++ "YOLOv3 Tiny".toList) ⟨["TURN_ON".toList], []⟩ =
      .ok ⟨["TURN_ON".toList] ++
        ["Clear Queue".toList, "SET_EG_MODEL:".toList ++ "YOLOv3 Tiny".toList], []⟩ :=
  ⟨(C13_route_model_commands_clear_queue "YOLOv3 Tiny".toList ⟨["TURN_ON".toList], []⟩).1
      (by decide) (by decide) (by decide),
    (C13_route_model_commands_clear_queue "YOLOv3 Tiny".toList ⟨["TURN_ON".toList], []⟩).2
      (by decide) (by decide) (by decide) (by decide) (by decide)⟩

/-- C14 as stated fails: for the payload `SET_FD_MODEL` the router, given
`SET_HP_MODEL:SET_FD_MODEL`, takes its `SET_FD_MODEL` branch and pushes
`Clear Queue` and `SET_FD_MODEL:SET_FD_MODEL`; and for the payload `SET_FPS` the
router, given `SET_SOURCE:SET_FPS`, takes its `SET_FPS` branch, where `std::stoi`
throws and nothing is pushed. -/
theorem C14_counterexample_payload_names_earlier_command :
    route ("SET_HP_MODEL:".toList ++ "SET_FD_MODEL".toList) ⟨[], []⟩ =
      .ok ⟨["Clear Queue".toList, "SET_FD_MODEL:SET_FD_MODEL".toList], []⟩ ∧
    route ("SET_SOURCE:".toList ++ "SET_FPS".toList) ⟨[], []⟩ =
      .throws .invalid_argument ⟨[], []⟩ := by
  decide

/-- C14, amended: for every payload `v` that contains neither `SET_FPS` nor
`SET_FDT`, the router given `SET_SOURCE:` followed by `v` pushes exactly one
string, the message itself, onto the command queue and nothing onto the fault
queue; for every payload `v` that contains none of `SET_FPS`, `SET_FDT`,
`SET_SOURCE`, `SET_FD_MODEL`, the same holds for `SET_HP_MODEL:` followed by `v`;
and it holds for the message `TURN_ON`. -/
theorem C14_route_unvalidated_commands (v : Str) (st : Channels) :
    (find v "SET_FPS".toList = none → find v "SET_FDT".toList = none →
      route ("SET_SOURCE:".toList ++ v) st =
        .ok ⟨st.commandsQueue ++ ["SET_SOURCE:".toList ++ v], st.faultsQueue⟩) ∧
    (find v "SET_FPS".toList = none → find v "SET_FDT".toList = none →
      find v "SET_SOURCE".toList = none → find v "SET_FD_MODEL".toList = none →
      route ("SET_HP_MODEL:".toList ++ v) st =
        .ok ⟨st.commandsQueue ++ ["SET_HP_MODEL:".toList ++ v], st.faultsQueue⟩) ∧
    route "TURN_ON".toList st =
      .ok ⟨st.commandsQueue ++ ["TURN_ON".toList], st.faultsQueue⟩ :=
  ⟨route_SET_SOURCE v st, route_SET_HP_MODEL v st,
    by simp [route, find, Channels.pushCommand]⟩

/-- C14 (amended) at the payload `video.mp4`, from the empty queues. -/
theorem C14_route_unvalidated_commands_witness :
    route ("SET_SOURCE:".toList ++ "video.mp4".toList) ⟨[], []⟩ =
      .ok ⟨[] ++ ["SET_SOURCE:".toList ++ "video.mp4".toList], []⟩ ∧
    route ("SET_HP_MODEL:".toList ++ "video.mp4".toList) ⟨[], []⟩ =
      .ok ⟨[] ++ ["SET_HP_MODEL:".toList ++ "video.mp4".toList], []⟩ :=
  ⟨(C14_route_unvalidated_commands "video.mp4".toList ⟨[], []⟩).1 (by decide) (by decide),
    (C14_route_unvalidated_commands "video.mp4".toList ⟨[], []⟩).2.1
      (by decide) (by decide) (by decide) (by decide)⟩

/-- C15 as stated fails: `xSET_SOURCE:abc` is neither `TURN_ON` nor `TURN_OFF` and
begins with none of the six recognized prefixes, yet the router pushes
`SET_SOURCE::abc` onto the command queue; and ` SET_FPS:5` (with a leading blank)
begins with none of them either, yet the router ends in `std::invalid_argument`. -/
theorem C15_counterexample_keyword_inside_message :
    (∀ pre ∈ ["SET_FPS".toList, "SET_FDT".toList, "SET_SOURCE".toList,
          "SET_FD_MODEL".toList, "SET_HP_MODEL".toList, "SET_EG_MODEL".toList],
        pre.isPrefixOf "xSET_SOURCE:abc".toList = false ∧
          pre.isPrefixOf " SET_FPS:5".toList = false) ∧
    route "xSET_SOURCE:abc".toList ⟨[], []⟩ = .ok ⟨["SET_SOURCE::abc".toList], []⟩ ∧
    route " SET_FPS:5".toList ⟨[], []⟩ = .throws .invalid_argument ⟨[], []⟩ := by
  decide

/-- C15, amended: for every message that is neither `TURN_ON` nor `TURN_OFF` and
contains none of the texts `SET_FPS`, `SET_FDT`, `SET_SOURCE`, `SET_FD_MODEL`,
`SET_HP_MODEL`, `SET_EG_MODEL`, the router returns normally and leaves both queues
unchanged. -/
theorem C15_route_unknown_message (m : Str) (st : Channels)
    (hoff : m ≠ "TURN_OFF".toList) (hon : m ≠ "TURN_ON".toList)
    (h1 : find m "SET_FPS".toList = none) (h2 : find m "SET_FDT".toList = none)
    (h3 : find m "SET_SOURCE".toList = none) (h4 : find m "SET_FD_MODEL".toList = none)
    (h5 : find m "SET_HP_MODEL".toList = none) (h6 : find m "SET_EG_MODEL".toList = none) :
    route m st = .ok st := by
  simp only [String.toList] at hoff hon h1 h2 h3 h4 h5 h6
  simp [route, hoff, hon, h1, h2, h3, h4, h5, h6]

/-- C15 (amended) at the message `HELLO`. -/
theorem C15_route_unknown_message_witness :
    route "HELLO".toList ⟨["TURN_ON".toList], ["TURN_OFF".toList]⟩ =
      .ok ⟨["TURN_ON".toList], ["TURN_OFF".toList]⟩ :=
  C15_route_unknown_message "HELLO".toList ⟨["TURN_ON".toList], ["TURN_OFF".toList]⟩
    (by decide) (by decide) (by decide) (by decide) (by decide) (by decide) (by decide)
    (by decide)

/-! ## `faulthandling`, the remaining branches -/

/-- A fault that is none of the four exact tokens and contains neither `SET_FPS`
nor `SET_FDT:` falls through to the branches that push nothing. -/
theorem faulthandling_unrecognized (fault : Str) (st : Channels)
    (hcam : fault ≠ "Camera_disconnected".toList) (hoff : fault ≠ "TURN_OFF".toList)
    (htcp : fault ≠ "TCP_Connection_Error".toList) (hface : fault ≠ "FaceDet_fault".toList)
    (hfps : find fault "SET_FPS".toList = none)
    (hfdt : find fault "SET_FDT:".toList = none) :
    faulthandling fault st = .ok st := by
  simp only [String.toList] at hcam hoff htcp hface hfps hfdt
  simp [faulthandling, hcam, hoff, htcp, hface, hfps, hfdt]

/-- C16 as stated fails: the fault `xSET_FPS:5` is none of the four exact tokens
and begins with none of the four prefixes, yet `faulthandling` pushes the command
`SET_FPS::5`. -/
theorem C16_counterexample_keyword_inside_fault :
    (∀ pre ∈ ["SET_FPS".toList, "SET_FDT".toList, "Velocity_fault".toList,
          "Steering_fault".toList], pre.isPrefixOf "xSET_FPS:5".toList = false) ∧
    faulthandling "xSET_FPS:5".toList ⟨[], []⟩ = .ok ⟨["SET_FPS::5".toList], []⟩ := by
  decide

/-- C16, amended: for every fault token that is none of the exact tokens
`Camera_disconnected`, `TURN_OFF`, `TCP_Connection_Error`, `FaceDet_fault` and
contains neither `SET_FPS` nor `SET_FDT:`, `faulthandling` returns normally and
leaves both queues unchanged; and the pass of the `faultfind` loop that pops the
token ends normally, with the command queue unchanged and, when the log file is
open, the line `[<timestamp>] ` followed by the token appended to the fault log
(the fault log is unchanged when the log file is not open). -/
theorem C16_unrecognized_fault_logged_only (fault now : Str) (rest : List Str)
    (fm : FaultManager)
    (hcam : fault ≠ "Camera_disconnected".toList) (hoff : fault ≠ "TURN_OFF".toList)
    (htcp : fault ≠ "TCP_Connection_Error".toList) (hface : fault ≠ "FaceDet_fault".toList)
    (hfps : find fault "SET_FPS".toList = none)
    (hfdt : find fault "SET_FDT:".toList = none)
    (hq : fm.ch.faultsQueue = fault :: rest) :
    (∀ st : Channels, faulthandling fault st = .ok st) ∧
    faultfind_iter now fm =
      .continues ⟨⟨fm.ch.commandsQueue, rest⟩, fm.running, fm.logOpen,
        if fm.logOpen then fm.faultLog ++ ["[".toList ++ now ++ "] ".toList ++ fault]
        else fm.faultLog⟩ := by
  have hnone := fun st => faulthandling_unrecognized fault st hcam hoff htcp hface hfps hfdt
  refine ⟨hnone, ?_⟩
  unfold faultfind_iter
  rw [hq]
  simp only []
  rw [hnone]
  cases hopen : fm.logOpen <;> simp [logFault, hopen]

/-- C16 (amended) at the fault `Lane_fault`, with the log file open. -/
theorem C16_unrecognized_fault_logged_only_witness :
    (∀ st : Channels, faulthandling "Lane_fault".toList st = .ok st) ∧
    faultfind_iter "2024-05-01T10:00:00".toList
        ⟨⟨["TURN_ON".toList], ["Lane_fault".toList]⟩, true, true, []⟩ =
      .continues ⟨⟨["TURN_ON".toList], []⟩, true, true,
        ["[2024-05-01T10:00:00] Lane_fault".toList]⟩ :=
  C16_unrecognized_fault_logged_only "Lane_fault".toList "2024-05-01T10:00:00".toList []
    ⟨⟨["TURN_ON".toList], ["Lane_fault".toList]⟩, true, true, []⟩
    (by decide) (by decide) (by decide) (by decide) (by decide) (by decide) rfl

/-- C17: whatever the queues hold, `faulthandling` pushes exactly one string onto
the command queue and leaves the fault queue unchanged on each of the three fixed
tokens: `Read_video` on `Camera_disconnected`, `No_TCP_Connection` on
`TCP_Connection_Error`, and `SET_FD_MODEL:No Face Detection` on `FaceDet_fault`. -/
theorem C17_fixed_faults_fixed_commands (st : Channels) :
    faulthandling "Camera_disconnected".toList st =
        .ok ⟨st.commandsQueue ++ ["Read_video".toList], st.faultsQueue⟩ ∧
      faulthandling "TCP_Connection_Error".toList st =
        .ok ⟨st.commandsQueue ++ ["No_TCP_Connection".toList], st.faultsQueue⟩ ∧
      faulthandling "FaceDet_fault".toList st =
        .ok ⟨st.commandsQueue ++ ["SET_FD_MODEL:No Face Detection".toList],
          st.faultsQueue⟩ := by
  refine ⟨?_, ?_, ?_⟩ <;> simp [faulthandling, find, Channels.pushCommand]

/-- C18: whatever the queues hold, `faulthandling` on the fault `Velocity_fault`
and on the fault `Steering_fault` returns normally and leaves the command queue
(and the fault queue) unchanged; the pass of the `faultfind` loop that pops such a
fault goes on to `logFault` with the command queue unchanged. -/
theorem C18_velocity_steering_no_command (st : Channels) (now : Str) (rest : List Str)
    (running logOpen : Bool) (faultLog : List Str) :
    faulthandling "Velocity_fault".toList st = .ok st ∧
      faulthandling "Steering_fault".toList st = .ok st ∧
      faultfind_iter now
          ⟨⟨st.commandsQueue, "Velocity_fault".toList :: rest⟩, running, logOpen, faultLog⟩ =
        .continues (logFault now "Velocity_fault".toList
          ⟨⟨st.commandsQueue, rest⟩, running, logOpen, faultLog⟩) ∧
      faultfind_iter now
          ⟨⟨st.commandsQueue, "Steering_fault".toList :: rest⟩, running, logOpen, faultLog⟩ =
        .continues (logFault now "Steering_fault".toList
          ⟨⟨st.commandsQueue, rest⟩, running, logOpen, faultLog⟩) := by
  refine ⟨?_, ?_, ?_, ?_⟩ <;> simp [faultfind_iter, faulthandling, find]

/-! ## `handleFrameClient` -/

theorem leBytes_of_bytes (a b c d : Nat) (ha : a < 256) (hb : b < 256) (hc : c < 256)
    (hd : d < 256) :
    leBytes 4 (a * 16777216 + b * 65536 + c * 256 + d) = [d, c, b, a] := by
  simp only [leBytes, List.cons.injEq, and_true]
  refine ⟨?_, ?_, ?_, ?_⟩ <;> omega

/-- The memory image of `htonl(n)` on the host is the big-endian encoding of
`n mod 2 ^ 32`. -/
theorem leBytes_htonl (n : Nat) : leBytes 4 (htonl n) = beBytes4 (n % WORD_RANGE) := by
  have h := leBytes_of_bytes (n % WORD_RANGE % 256) (n % WORD_RANGE / 256 % 256)
    (n % WORD_RANGE / 65536 % 256) (n % WORD_RANGE / 16777216 % 256)
    (Nat.mod_lt _ (by decide)) (Nat.mod_lt _ (by decide)) (Nat.mod_lt _ (by decide))
    (Nat.mod_lt _ (by decide))
  simpa only [htonl, beBytes4] using h

/-- C19 as stated fails: when the `send` of the length header returns `-1`, the
handler throws before the second `send`; the only bytes handed to the socket for
the frame are the four header bytes, not the header followed by the three encoded
bytes. -/
theorem C19_counterexample_header_send_fails :
    handleFrameClient_frame [255, 216, 255] (-1) 3 = ([[0, 0, 0, 3]], .sizeFailed) := by
  decide

/-- C19, amended: the first byte string `handleFrameClient` hands to `send` for a
frame whose encoded buffer has `n` bytes is the 4-byte big-endian encoding of `n`
taken modulo `2 ^ 32`; and unless that `send` fails (returns `-1` or `0`), the
byte strings handed to `send` for the frame are exactly that header and then the
`n` encoded bytes. -/
theorem C19_frame_header_then_bytes (buffer : List Nat) (sentSize sentData : Int) :
    (handleFrameClient_frame buffer sentSize sentData).1.head? =
        some (beBytes4 (buffer.length % WORD_RANGE)) ∧
      (sentSize ≠ -1 → sentSize ≠ 0 →
        (handleFrameClient_frame buffer sentSize sentData).1 =
            [beBytes4 (buffer.length % WORD_RANGE), buffer] ∧
          (handleFrameClient_frame buffer sentSize sentData).1.flatten =
            beBytes4 (buffer.length % WORD_RANGE) ++ buffer) := by
  unfold handleFrameClient_frame
  simp only [leBytes_htonl]
  refine ⟨?_, ?_⟩
  · split_ifs <;> rfl
  · intro h1 h0
    have hn : ¬ (sentSize = -1 ∨ sentSize = 0) := not_or.mpr ⟨h1, h0⟩
    rw [if_neg hn]
    split_ifs <;> simp

/-- C19 (amended) at a 3-byte buffer with both `send` calls going through: the
header is `0 0 0 3`. -/
theorem C19_frame_header_then_bytes_witness :
    (handleFrameClient_frame [255, 216, 255] 4 3).1 = [[0, 0, 0, 3], [255, 216, 255]] ∧
      (handleFrameClient_frame [255, 216, 255] 4 3).1.flatten =
        [0, 0, 0, 3] ++ [255, 216, 255] :=
  (C19_frame_header_then_bytes [255, 216, 255] 4 3).2 (by decide) (by decide)

/-! ## Number of passes of the walk -/
/-- The header reads a walk adds to the record: one per pass, each at the cursor
of its pass, inside the received data, and at least four bytes behind the one
before; so there are at most `⌈(end - ptr) / 4⌉` of them. -/
theorem walk_reads_spec (received : Str) : ∀ (fuel ptr : Nat) (w : Walk) (e : WalkEnd)
    (w' : Walk), walk received fuel ptr w = some (e, w') →
    ∃ new : List Nat, w'.reads = w.reads ++ new ∧
      new.length ≤ (received.length - ptr + 3) / 4 ∧
      (∀ x ∈ new, ptr ≤ x ∧ x < received.length) ∧
      List.Chain' (fun a b => a + 4 ≤ b) new := by
  intro fuel
  induction fuel with
  | zero => intro ptr w e w' h; simp [walk] at h
  | succ fuel ih =>
    intro ptr w e w' h
    rw [walk] at h
    have single : ptr < received.length → ∀ w1 : Walk, w1.reads = w.reads ++ [ptr] →
        ∃ new : List Nat, w1.reads = w.reads ++ new ∧
          new.length ≤ (received.length - ptr + 3) / 4 ∧
          (∀ x ∈ new, ptr ≤ x ∧ x < received.length) ∧
          List.Chain' (fun a b => a + 4 ≤ b) new := by
      intro hlt w1 hw1
      refine ⟨[ptr], hw1, ?_, ?_, List.chain'_singleton _⟩
      · simp only [List.length_singleton]; omega
      · intro x hx
        rw [List.mem_singleton.mp hx]
        exact ⟨le_refl _, hlt⟩
    split_ifs at h with hlt
    · cases hr : readLength received ptr with
      | none =>
        rw [hr] at h
        simp only [Option.some.injEq, Prod.mk.injEq] at h
        exact single hlt w' (by rw [← h.2])
      | some messageLength =>
        rw [hr] at h
        simp only [] at h
        split_ifs at h with h1 h2
        · simp only [Option.some.injEq, Prod.mk.injEq] at h
          exact single hlt w' (by rw [← h.2])
        · simp only [Option.some.injEq, Prod.mk.injEq] at h
          exact single hlt w' (by rw [← h.2])
        · cases hroute : route ((received.drop (ptr + 4)).take messageLength.toNat) w.st with
          | throws ex st1 =>
            rw [hroute] at h
            simp only [Option.some.injEq, Prod.mk.injEq] at h
            exact single hlt w' (by rw [← h.2])
          | ok st1 =>
            rw [hroute] at h
            simp only [] at h
            obtain ⟨new, hn1, hn2, hn3, hn4⟩ := ih _ _ _ _ h
            refine ⟨ptr :: new, ?_, ?_, ?_, ?_⟩
            · rw [hn1]; simp
            · simp only [List.length_cons]; omega
            · intro x hx
              rcases List.mem_cons.mp hx with hx | hx
              · rw [hx]; exact ⟨le_refl _, hlt⟩
              · have := hn3 x hx
                exact ⟨by omega, this.2⟩
            · rw [List.chain'_cons']
              refine ⟨?_, hn4⟩
              intro y hy
              have := hn3 y (List.mem_of_mem_head? hy)
              omega
    · simp only [Option.some.injEq, Prod.mk.injEq] at h
      exact ⟨[], by rw [← h.2]; simp, by simp, by simp, List.chain'_nil⟩

/-- C20: for every content of the receive buffer, with `n` bytes received, the walk
of `handleCommandClient` returns, after at most `⌈n / 4⌉` passes of its loop. The
record `reads` holds the cursor of each pass: every cursor lies inside the received
data and is at least four bytes behind the cursor of the pass before, so a pass
either ends the walk or moves the cursor forward by at least four bytes. -/
theorem C20_walk_passes_bounded (received : Str) (st : Channels) :
    ∃ (e : WalkEnd) (w : Walk),
      walk received (received.length + 1) 0 ⟨st, [], []⟩ = some (e, w) ∧
      w.reads.length ≤ (received.length + 3) / 4 ∧
      List.Chain' (fun a b => a + 4 ≤ b) w.reads ∧
      ∀ x ∈ w.reads, x < received.length := by
  have hsome := walk_isSome received (received.length + 1) 0 ⟨st, [], []⟩ (by omega)
  cases hw : walk received (received.length + 1) 0 ⟨st, [], []⟩ with
  | none => rw [hw] at hsome; exact absurd hsome (by simp)
  | some res =>
    obtain ⟨e, w⟩ := res
    obtain ⟨new, h1, h2, h3, h4⟩ := walk_reads_spec received _ _ _ _ _ hw
    simp only [List.nil_append] at h1
    rw [← h1] at h2 h3 h4
    exact ⟨e, w, rfl, by simpa using h2, h4, fun x hx => (h3 x hx).2⟩

/-! ## Where the walk reads its length headers -/

/-- A pass of the walk whose cursor is inside the received data but less than four
bytes before the end of `buffer[1024]`: the header is read across the end of the
buffer. -/
theorem walk_header_outside_buffer (received : Str) (fuel ptr : Nat) (w : Walk)
    (hlt : ptr < received.length) (hout : BUFFER_SIZE < ptr + 4) :
    walk received (fuel + 1) ptr w =
      some (.outOfBuffer, ⟨w.st, w.reads ++ [ptr], w.handed⟩) := by
  have hr : readLength received ptr = none := by
    unfold readLength
    rw [if_neg (by omega)]
  rw [walk, if_pos hlt, hr]

theorem routeAll_replicate_nil (n : Nat) (st : Channels) :
    routeAll (List.replicate n []) st = .ok st := by
  induction n with
  | zero => rfl
  | succ n ih =>
    have h0 : route [] st = .ok st := by simp [route, find]
    rw [List.replicate_succ, routeAll, h0]
    exact ih

theorem encodeFrames_replicate_nil_length (n : Nat) :
    (encodeFrames (List.replicate n [])).length = 4 * n := by
  induction n with
  | zero => rfl
  | succ n ih =>
    rw [List.replicate_succ, encodeFrames, List.length_append, encodeFrame_length, ih]
    simp only [List.length_nil]
    omega

/-- A receive made of the frame of the 1-byte message `x`, `n` frames of empty
messages and three more bytes, `5 + 4 * n + 3` bytes in all: when the frames end
at offset 1021 the walk reads its next header there, across the end of the
buffer. -/
theorem walk_frames_then_outside (n fuel : Nat) (h : 5 + 4 * n = 1021) :
    (encodeFrames (['x'] :: List.replicate n []) ++
      [Char.ofNat 0, Char.ofNat 0, Char.ofNat 0]).length = 1024 ∧
    ∃ reads : List Nat,
      walk (encodeFrames (['x'] :: List.replicate n []) ++
          [Char.ofNat 0, Char.ofNat 0, Char.ofNat 0]) (n + 1 + (fuel + 1)) 0
          ⟨⟨[], []⟩, [], []⟩ =
        some (.outOfBuffer, ⟨⟨[], []⟩, reads ++ [1021], ['x'] :: List.replicate n []⟩) := by
  have hlen : (encodeFrames (['x'] :: List.replicate n [])).length = 1021 := by
    rw [encodeFrames, List.length_append, encodeFrame_length,
      encodeFrames_replicate_nil_length]
    simp only [List.length_singleton]
    omega
  have htot : (encodeFrames (['x'] :: List.replicate n []) ++
      [Char.ofNat 0, Char.ofNat 0, Char.ofNat 0]).length = 1024 := by
    rw [List.length_append, hlen]; rfl
  have hroute : routeAll (['x'] :: List.replicate n []) ⟨[], []⟩ = .ok ⟨[], []⟩ := by
    have hx : route ['x'] ⟨[], []⟩ = .ok ⟨[], []⟩ := by decide
    rw [routeAll, hx]
    exact routeAll_replicate_nil n _
  refine ⟨htot, ?_⟩
  obtain ⟨reads, hw⟩ := walk_frames [Char.ofNat 0, Char.ofNat 0, Char.ofNat 0]
    (['x'] :: List.replicate n []) [] (fuel + 1) ⟨⟨[], []⟩, [], []⟩ ⟨[], []⟩ hroute
    (by rw [hlen]; decide)
  refine ⟨reads, ?_⟩
  have hcount : (['x'] :: List.replicate n ([] : Str)).length = n + 1 := by
    rw [List.length_cons, List.length_replicate]
  rw [hcount] at hw
  simp only [List.nil_append, List.length_nil, Nat.zero_add, hlen] at hw
  rw [hw]
  exact walk_header_outside_buffer _ fuel 1021 _ (by rw [htot]; decide) (by decide)

/-- The same receive, seen from the handler: the pass ends with a header read
from outside the buffer. -/
theorem recv_frames_then_outside (n : Nat) (h : 5 + 4 * n = 1021) :
    handleCommandClient_recv
        (.data (encodeFrames (['x'] :: List.replicate n []) ++
          [Char.ofNat 0, Char.ofNat 0, Char.ofNat 0])) ⟨[], []⟩ =
      some (.undefined ⟨[], []⟩) := by
  obtain ⟨htot, reads, hw⟩ := walk_frames_then_outside n 769 h
  have e : (1024 : Nat) + 1 = n + 1 + (769 + 1) := by omega
  simp only [handleCommandClient_recv, htot, e, hw]

/-- C21 (the code at two failing inputs). First, one byte received: the walk reads
a header at offset 0, that is the bytes 0 to 3, of which only byte 0 was received
(the other three are the zeros the buffer was initialised with), and stops at the
`break`. Second, 1024 bytes received, made of the frame of a 1-byte message, 254
frames of empty messages and three more bytes: after the 255 frames the cursor is
at offset 1021, inside the received data, and the header read there covers the
offsets 1021 to 1024, one byte past the end of `buffer[1024]`. -/
theorem C21_header_read_past_received_data :
    walk [Char.ofNat 5] 2 0 ⟨⟨[], []⟩, [], []⟩ =
      some (.incomplete, ⟨⟨[], []⟩, [0], []⟩) ∧
    (encodeFrames (['x'] :: List.replicate 254 []) ++
      [Char.ofNat 0, Char.ofNat 0, Char.ofNat 0]).length = 1024 ∧
    (∃ reads : List Nat,
      walk (encodeFrames (['x'] :: List.replicate 254 []) ++
          [Char.ofNat 0, Char.ofNat 0, Char.ofNat 0]) (254 + 1 + (769 + 1)) 0
          ⟨⟨[], []⟩, [], []⟩ =
        some (.outOfBuffer,
          ⟨⟨[], []⟩, reads ++ [1021], ['x'] :: List.replicate 254 []⟩)) ∧
    handleCommandClient_recv
        (.data (encodeFrames (['x'] :: List.replicate 254 []) ++
          [Char.ofNat 0, Char.ofNat 0, Char.ofNat 0])) ⟨[], []⟩ =
      some (.undefined ⟨[], []⟩) :=
  ⟨by decide, (walk_frames_then_outside 254 769 (by decide)).1,
    (walk_frames_then_outside 254 769 (by decide)).2,
    recv_frames_then_outside 254 (by decide)⟩

/-! ## The effect of `faulthandling` on the two queues -/

/-- Whatever the fault and however `faulthandling` ends, it appends at most one
string to the command queue and leaves the fault queue as it is. -/
theorem faulthandling_effect (fault : Str) (st : Channels) :
    ∃ cs : List Str,
      (faulthandling fault st).state = ⟨st.commandsQueue ++ cs, st.faultsQueue⟩ ∧
        cs.length ≤ 1 := by
  simp only [faulthandling, Res.try]
  repeat' split
  all_goals
    first
    | (refine ⟨[_], rfl, ?_⟩; simp)
    | (refine ⟨[], ?_, ?_⟩ <;> simp [Res.state])
/-- C22: for every fault token on which `faulthandling` returns normally, the
queues it returns are the queues it was given with at most one string appended to
the command queue, and the fault queue is the same as before: nothing was pushed
onto it and nothing was popped from it. -/
theorem C22_faulthandling_at_most_one_command (fault : Str) (st st1 : Channels)
    (h : faulthandling fault st = .ok st1) :
    st1.faultsQueue = st.faultsQueue ∧
      ∃ cs : List Str, st1.commandsQueue = st.commandsQueue ++ cs ∧ cs.length ≤ 1 := by
  obtain ⟨cs, hcs, hlen⟩ := faulthandling_effect fault st
  rw [h] at hcs
  simp only [Res.state] at hcs
  rw [hcs]
  exact ⟨rfl, cs, rfl, hlen⟩

/-- C22 at the fault `SET_FPS:150` (one command pushed), with another fault still
waiting in the fault queue. -/
theorem C22_faulthandling_at_most_one_command_witness :
    faulthandling "SET_FPS:150".toList ⟨["TURN_ON".toList], ["FaceDet_fault".toList]⟩ =
      .ok ⟨["TURN_ON".toList, "SET_FPS:100".toList], ["FaceDet_fault".toList]⟩ ∧
    (["FaceDet_fault".toList] = ["FaceDet_fault".toList] ∧
      ∃ cs : List Str,
        ["TURN_ON".toList, "SET_FPS:100".toList] = ["TURN_ON".toList] ++ cs ∧
          cs.length ≤ 1) :=
  ⟨by decide,
    C22_faulthandling_at_most_one_command "SET_FPS:150".toList
      ⟨["TURN_ON".toList], ["FaceDet_fault".toList]⟩
      ⟨["TURN_ON".toList, "SET_FPS:100".toList], ["FaceDet_fault".toList]⟩ (by decide)⟩

/-! ## `serialize` on an arbitrary matrix -/

end Jetson
